import Mathlib

/-!
Verification development for the greenwashing-audit pipeline (src/app.py,
function process_pdfs).  The extraction engine, policy detector, scoring
engine and batch orchestrator are shallowly embedded: page texts are lists
of characters, Python floats are modelled as rationals, and the specific
regular expressions used by the source
(`(L1|L2).*?([\d,]+\.?\d*)` with IGNORECASE, optionally DOTALL, and
`POLICY.*?Yes` with IGNORECASE|DOTALL) are modelled by executable
leftmost-match scanners with lazy-gap semantics.
-/

namespace Greenwash

/-- Page text and snippets are lists of characters. -/
abbrev Str := List Char

/-- Case-insensitive equality of character lists, modelling re.IGNORECASE
matching of a literal. -/
def ciEq (a b : Str) : Prop := a.map Char.toLower = b.map Char.toLower

/-- Consume the literal `L` case-insensitively from the front of `s`,
returning the remainder (the IGNORECASE literal matcher). -/
def ciDrop : Str → Str → Option Str
  | [], s => some s
  | _ :: _, [] => none
  | p :: ps, c :: cs => if p.toLower = c.toLower then ciDrop ps cs else none

/-- Consume the literal `p` (case-sensitively) from the front of `s`,
modelling exact substring matching as used by str.replace. -/
def exDrop : Str → Str → Option Str
  | [], s => some s
  | _ :: _, [] => none
  | p :: ps, c :: cs => if p = c then exDrop ps cs else none

/-- Characters matched by the regex class `[\d,]`. -/
def numChar (c : Char) : Bool := c.isDigit || c == ','

/-- Greedy match of `[\d,]+\.?\d*` at the front of `s` (caller guarantees the
head is a `numChar`): returns the matched token and the remainder. -/
def takeNum (s : Str) : Str × Str :=
  match s.dropWhile numChar with
  | '.' :: r2 =>
    (s.takeWhile numChar ++ '.' :: r2.takeWhile Char.isDigit, r2.dropWhile Char.isDigit)
  | _ => (s.takeWhile numChar, s.dropWhile numChar)

/-- Lazy `.*?` gap followed by the numeric group: scan forward from the
current position; the gap may not cross a newline unless `dotall` is set
(Python `.` excludes only the newline).  Returns the gap and the numeric
group of the leftmost-shortest continuation. -/
def findNumAfter (dotall : Bool) : Str → Option (Str × Str)
  | [] => none
  | c :: cs =>
    if numChar c then
      some ([], (takeNum (c :: cs)).1)
    else if dotall || !(c == '\n') then
      match findNumAfter dotall cs with
      | some (gap, num) => some (c :: gap, num)
      | none => none
    else none

/-- Attempt the pattern `LABEL.*?([\d,]+\.?\d*)` anchored at the start of
`s`; on success return (group 0, group 2) as in the source's re.search. -/
def tryLabel (dotall : Bool) (L s : Str) : Option (Str × Str) :=
  match ciDrop L s with
  | none => none
  | some r =>
    match findNumAfter dotall r with
    | none => none
    | some (gap, num) => some (s.take (L.length + gap.length + num.length), num)

/-- Alternation over the label phrases at a fixed position, in pattern
order (Python tries alternatives left to right). -/
def matchAt (labels : List Str) (dotall : Bool) (s : Str) : Option (Str × Str) :=
  labels.findSome? (fun L => tryLabel dotall L s)

/-- re.search for `(L1|L2).*?([\d,]+\.?\d*)`: leftmost starting position
wins; returns (group 0, group 2). -/
def searchLN (labels : List Str) (dotall : Bool) : Str → Option (Str × Str)
  | [] => none
  | c :: cs =>
    match matchAt labels dotall (c :: cs) with
    | some r => some r
    | none => searchLN labels dotall cs

/-- The literal affirmation token of the policy pattern. -/
def yesTok : Str := "Yes".data

/-- Does the literal `lit` occur (case-insensitively) anywhere in `s`?
Models the `.*?Yes` tail of the policy pattern under DOTALL. -/
def hasLitFrom (lit : Str) : Str → Bool
  | [] => false
  | c :: cs => (ciDrop lit (c :: cs)).isSome || hasLitFrom lit cs

/-- re.search truthiness for `POLICY.*?Yes` with IGNORECASE|DOTALL. -/
def searchPolicy (p : Str) : Str → Bool
  | [] => false
  | c :: cs =>
    (match ciDrop p (c :: cs) with
     | some r => hasLitFrom yesTok r
     | none => false) || searchPolicy p cs

/-- group(2).replace(',', ''). -/
def stripCommas (s : Str) : Str := s.filter (fun c => !(c == ','))

/-- Decimal value of a digit string. -/
def digitsVal (s : Str) : ℕ := s.foldl (fun a c => 10 * a + (c.toNat - 48)) 0

/-- Python float() restricted to the strings producible by stripping commas
from the numeric group `[\d,]+\.?\d*`: such a string is digits, optionally
a dot, then digits, and parses iff it contains at least one digit
(float("") and float(".") raise ValueError, modelled by none). -/
def pyFloat? (s : Str) : Option ℚ :=
  if s.any Char.isDigit then
    match s.dropWhile Char.isDigit with
    | '.' :: fp => some ((digitsVal (s.takeWhile Char.isDigit) : ℚ) + (digitsVal fp : ℚ) / (10 : ℚ) ^ fp.length)
    | _ => some ((digitsVal (s.takeWhile Char.isDigit) : ℚ))
  else none

/-- The running extraction variables of process_pdfs (lines 82-90). -/
structure ExtractState where
  csr_spend : ℚ
  renewable_energy : ℚ
  total_energy : ℚ
  ghg_emissions : ℚ
  csr_snippet : Str
  renew_snippet : Str
  deriving Repr, DecidableEq

/-- Sentinel evidence value. -/
def notFound : Str := "Not Found".data

/-- Initial extraction variables: defaults 0.0 / 1.0 and "Not Found". -/
def initState : ExtractState := ⟨0, 0, 1, 0, notFound, notFound⟩

/-- Label alternatives of the CSR-spend pattern (line 101). -/
def csrLabels : List Str := ["Community Spending".data, "CSR Expenditure".data]

/-- Label alternatives of the renewable-energy pattern (line 107). -/
def renLabels : List Str := ["Renewable Energy Use".data, "Renewable Energy".data]

/-- Label alternatives of the total-energy pattern (line 113). -/
def enLabels : List Str := ["Total Energy Consumption".data, "Energy Consumption".data]

/-- Label alternatives of the GHG pattern (line 117). -/
def ghgLabels : List Str := ["GHG Scope 1".data, "Scope 1 Emissions".data]

/-- Lines 100-104: search the CSR pattern on this page when csr_spend == 0;
a float() failure is an exception (none). -/
def stepCsr (s : ExtractState) (t : Str) : Option ExtractState :=
  if s.csr_spend = 0 then
    match searchLN csrLabels false t with
    | some (g0, g2) =>
      match pyFloat? (stripCommas g2) with
      | some v => some { s with csr_spend := v, csr_snippet := g0 }
      | none => none
    | none => some s
  else some s

/-- Lines 106-110: renewable-energy search when renewable_energy == 0. -/
def stepRenew (s : ExtractState) (t : Str) : Option ExtractState :=
  if s.renewable_energy = 0 then
    match searchLN renLabels false t with
    | some (g0, g2) =>
      match pyFloat? (stripCommas g2) with
      | some v => some { s with renewable_energy := v, renew_snippet := g0 }
      | none => none
    | none => some s
  else some s

/-- Lines 112-114: total-energy search when total_energy == 1.0 (no
snippet is kept for this field). -/
def stepTotal (s : ExtractState) (t : Str) : Option ExtractState :=
  if s.total_energy = 1 then
    match searchLN enLabels false t with
    | some (_, g2) =>
      match pyFloat? (stripCommas g2) with
      | some v => some { s with total_energy := v }
      | none => none
    | none => some s
  else some s

/-- Lines 116-118: GHG search when ghg_emissions == 0 (no snippet). -/
def stepGhg (s : ExtractState) (t : Str) : Option ExtractState :=
  if s.ghg_emissions = 0 then
    match searchLN ghgLabels false t with
    | some (_, g2) =>
      match pyFloat? (stripCommas g2) with
      | some v => some { s with ghg_emissions := v }
      | none => none
    | none => some s
  else some s

/-- One iteration of the page loop body (lines 99-118), in source order;
a raised exception in any block aborts the page (and the document). -/
def stepPage (s : ExtractState) (t : Str) : Option ExtractState :=
  (stepCsr s t).bind fun s1 =>
    (stepRenew s1 t).bind fun s2 =>
      (stepTotal s2 t).bind fun s3 => stepGhg s3 t

/-- The page loop (lines 95-118) over the already-truncated page list: a
page whose extract_text() returned None (modelled by `none`) raises a
TypeError at `full_text += text`, aborting the document; otherwise the
page text is appended to full_text and the four field searches run. -/
def runPages (s : ExtractState) (ft : Str) : List (Option Str) → Option (ExtractState × Str)
  | [] => some (s, ft)
  | none :: _ => none
  | some t :: ps =>
    match stepPage s t with
    | none => none
    | some s2 => runPages s2 (ft ++ t) ps

/-- The five checklist policies (line 121). -/
def policies : List Str :=
  ["Climate Change Policy".data, "Biodiversity Policy".data, "Water Policy".data,
   "Human Rights Policy".data, "Whistle Blower Policy".data]

/-- Lines 120-124: count policies whose pattern `p.*?Yes` (IGNORECASE and
DOTALL) matches the full concatenated text; each adds at most one. -/
def policyCount (ft : Str) : ℕ := policies.countP (fun p => searchPolicy p ft)

/-- Scoring logic, lines 126-136, exactly in source order (len(policies)
is 5).  Returns (talk_score, walk_score, risk_score) before rounding. -/
def scoreOf (policy_count : ℕ) (csr_spend renewable_energy total_energy : ℚ) : ℚ × ℚ × ℚ :=
  let talk_score : ℚ := ((policy_count : ℚ) / 5) * 100
  let renew_mix : ℚ := if total_energy > 10 then (renewable_energy / total_energy) * 100 else 0
  let csr_score : ℚ := min ((csr_spend / 500) * 50) 50
  let walk0 : ℚ := renew_mix + csr_score
  let walk_score : ℚ := if walk0 > 100 then 100 else walk0
  let risk0 : ℚ := talk_score - walk_score
  let risk_score : ℚ := if risk0 < 0 then 0 else risk0
  (talk_score, walk_score, risk_score)

/-- Round-half-to-even to an integer, the rounding used by Python round(). -/
def roundHE (x : ℚ) : ℤ :=
  let n : ℤ := ⌊x⌋
  if x - n < 1 / 2 then n
  else if 1 / 2 < x - n then n + 1
  else if n % 2 = 0 then n else n + 1

/-- round(x, 1): round to one decimal place, ties to even. -/
def round1 (x : ℚ) : ℚ := (roundHE (10 * x) : ℚ) / 10

/-- The filename-to-formal-name table (lines 48-74). -/
def nameMap : List (Str × Str) :=
  [("acc.pdf".data, "ACC Limited".data),
   ("adani green.pdf".data, "Adani Green Energy Ltd.".data),
   ("Adani power.pdf".data, "Adani Power Ltd.".data),
   ("ambuja.pdf".data, "Ambuja Cements Ltd.".data),
   ("BPCL.pdf".data, "Bharat Petroleum Corporation Ltd.".data),
   ("Hindalco.pdf".data, "Hindalco Industries Ltd.".data),
   ("HPCL.pdf".data, "Hindustan Petroleum Corp. Ltd.".data),
   ("IOCL.pdf".data, "Indian Oil Corporation Ltd.".data),
   ("Jindal Steel.pdf".data, "Jindal Steel & Power Ltd.".data),
   ("Jsw energy.pdf".data, "JSW Energy Ltd.".data),
   ("Jsw Steel.pdf".data, "JSW Steel Ltd.".data),
   ("Nacl.pdf".data, "National Aluminium Company Ltd.".data),
   ("Nhpc.pdf".data, "NHPC Limited".data),
   ("Nmdc.pdf".data, "NMDC Limited".data),
   ("NTPC.pdf".data, "NTPC Limited".data),
   ("oil india.pdf".data, "Oil India Limited".data),
   ("Ongc.pdf".data, "Oil and Natural Gas Corporation".data),
   ("Reliance.pdf".data, "Reliance Industries Ltd.".data),
   ("SAIL.pdf".data, "Steel Authority of India Ltd.".data),
   ("Shree cement.pdf".data, "Shree Cement Ltd.".data),
   ("Sjvn.pdf".data, "SJVN Limited".data),
   ("Tata power.pdf".data, "Tata Power Company Ltd.".data),
   ("Tata Steel.pdf".data, "Tata Steel Ltd.".data),
   ("Ultratech.pdf".data, "UltraTech Cement Ltd.".data),
   ("Vedanta.pdf".data, "Vedanta Limited".data)]

/-- Exact (case-sensitive) dictionary lookup, first match wins. -/
def lookupName : List (Str × Str) → Str → Option Str
  | [], _ => none
  | (k, v) :: rest, f => if k = f then some v else lookupName rest f

/-- Python str.title() on ASCII text: a letter is uppercased when the
previous character is not a letter, lowercased otherwise. -/
def titleAux : Bool → Str → Str
  | _, [] => []
  | prev, c :: cs =>
    if c.isAlpha then (if prev then c.toLower else c.toUpper) :: titleAux true cs
    else c :: titleAux false cs

/-- Python str.title(). -/
def titleCase (s : Str) : Str := titleAux false s

/-- One pass of Python str.replace(p0 :: ptl, rep): non-overlapping
replacement, left to right.  The natural number is recursion fuel; every
step consumes at least one input character, so calling with the input's
length (as replaceAll does) never exhausts it. -/
def replaceAllF (p0 : Char) (ptl rep : Str) : ℕ → Str → Str
  | 0, s => s
  | _ + 1, [] => []
  | n + 1, c :: cs =>
    if p0 = c then
      match exDrop ptl cs with
      | some rest => rep ++ replaceAllF p0 ptl rep n rest
      | none => c :: replaceAllF p0 ptl rep n cs
    else c :: replaceAllF p0 ptl rep n cs

/-- Python str.replace(pat, rep) with the nonempty pattern p0 :: ptl. -/
def replaceAll (p0 : Char) (ptl rep s : Str) : Str := replaceAllF p0 ptl rep s.length s

/-- The extension pattern ".pdf" split for replaceAll. -/
def pdfTail : Str := "pdf".data

/-- Line 77 fallback: filename.replace(".pdf", "").replace("_", " ").title(). -/
def fallbackName (f : Str) : Str :=
  titleCase (replaceAll '_' [] (" ".data) (replaceAll '.' pdfTail [] f))

/-- Line 77: name_map.get(filename, fallback). -/
def companyName (f : Str) : Str :=
  match lookupName nameMap f with
  | some n => n
  | none => fallbackName f

/-- One row of the output table (lines 138-150); scores are stored rounded
to one decimal place. -/
structure Record where
  company : Str
  risk_score : ℚ
  talk_score : ℚ
  walk_score : ℚ
  csr_spend : ℚ
  renewable_energy : ℚ
  total_energy : ℚ
  ghg_scope1 : ℚ
  policy_count : ℕ
  csr_evidence : Str
  renew_evidence : Str
  deriving Repr, DecidableEq

/-- Build the appended row from the final extraction state and full text
(lines 120-150). -/
def mkRecord (filename : Str) (st : ExtractState) (ft : Str) : Record :=
  let pc := policyCount ft
  match scoreOf pc st.csr_spend st.renewable_energy st.total_energy with
  | (talk, walk, risk) =>
    ⟨companyName filename, round1 risk, round1 talk, round1 walk,
     st.csr_spend, st.renewable_energy, st.total_energy, st.ghg_emissions, pc,
     st.csr_snippet, st.renew_snippet⟩

/-- The per-file pipeline under the try/except (lines 92-153): `none`
models any exception (unreadable file is pages = none, a None page text,
or a float() failure); on exception no record is produced. -/
def processFile (filename : Str) (pages : Option (List (Option Str))) : Option Record :=
  match pages with
  | none => none
  | some ps =>
    match runPages initState [] (ps.take 10) with
    | none => none
    | some (st, ft) => some (mkRecord filename st ft)

/-- An input document: its filename and, when the file is openable, its
per-page extracted texts (a page yielding no text is `none`). -/
structure Doc where
  filename : Str
  pages : Option (List (Option Str))

/-- The batch loop of process_pdfs: one row per file that survives its
try/except, in listing order. -/
def processPdfs (docs : List Doc) : List Record :=
  docs.filterMap (fun d => processFile d.filename d.pages)

/-! ## Helper lemmas about the literal matchers -/

/-- Soundness of the case-insensitive literal matcher: on success the input
splits into a consumed block case-insensitively equal to the pattern, and
the returned remainder. -/
theorem ciDrop_some : ∀ (L s r : Str), ciDrop L s = some r → ∃ lab, s = lab ++ r ∧ ciEq lab L := by
  intro L
  induction L with
  | nil =>
    intro s r h
    simp only [ciDrop] at h
    cases h
    exact ⟨[], rfl, rfl⟩
  | cons p ps ih =>
    intro s r h
    cases s with
    | nil => simp [ciDrop] at h
    | cons c cs =>
      simp only [ciDrop] at h
      by_cases hpc : p.toLower = c.toLower
      · rw [if_pos hpc] at h
        obtain ⟨lab, hs, hci⟩ := ih cs r h
        refine ⟨c :: lab, by simp [hs], ?_⟩
        simp only [ciEq, List.map_cons] at hci ⊢
        rw [hci, ← hpc]
      · rw [if_neg hpc] at h
        cases h

/-- Completeness of the case-insensitive literal matcher. -/
theorem ciDrop_of_ciEq : ∀ (L lab r : Str), ciEq lab L → ciDrop L (lab ++ r) = some r := by
  intro L
  induction L with
  | nil =>
    intro lab r h
    have : lab = [] := by
      simpa [ciEq, List.map_eq_nil_iff] using h
    simp [this, ciDrop]
  | cons p ps ih =>
    intro lab r h
    cases lab with
    | nil => simp [ciEq] at h
    | cons c cs =>
      simp only [ciEq, List.map_cons, List.cons.injEq] at h
      simp only [List.cons_append, ciDrop, if_pos h.1.symm]
      exact ih cs r h.2

/-- Occurrence characterization of the `.*?Yes`-style tail scan. -/
theorem hasLitFrom_iff (lit : Str) (hne : lit ≠ []) :
    ∀ s, hasLitFrom lit s = true ↔ ∃ u mid v, s = u ++ mid ++ v ∧ ciEq mid lit := by
  intro s
  induction s with
  | nil =>
    simp only [hasLitFrom, Bool.false_eq_true, false_iff]
    rintro ⟨u, mid, v, hs, hci⟩
    have hu : u = [] := by
      cases u with
      | nil => rfl
      | cons a as => simp at hs
    subst hu
    have hmid : mid = [] := by
      cases mid with
      | nil => rfl
      | cons a as => simp at hs
    subst hmid
    exact hne (by simpa [ciEq, eq_comm, List.map_eq_nil_iff] using hci)
  | cons c cs ih =>
    simp only [hasLitFrom, Bool.or_eq_true, Option.isSome_iff_exists]
    constructor
    · rintro (⟨r, hr⟩ | h)
      · obtain ⟨lab, hs, hci⟩ := ciDrop_some lit (c :: cs) r hr
        exact ⟨[], lab, r, by simpa using hs, hci⟩
      · obtain ⟨u, mid, v, hs, hci⟩ := ih.mp h
        exact ⟨c :: u, mid, v, by simp [hs], hci⟩
    · rintro ⟨u, mid, v, hs, hci⟩
      cases u with
      | nil =>
        left
        refine ⟨v, ?_⟩
        simp only [List.nil_append] at hs
        rw [hs]
        exact ciDrop_of_ciEq lit mid v hci
      | cons a as =>
        right
        simp only [List.cons_append, List.cons.injEq] at hs
        exact ih.mpr ⟨as, mid, v, hs.2, hci⟩

/-- Declarative reading of the policy pattern `p.*?Yes` under
IGNORECASE|DOTALL: somewhere in the text the policy name occurs
(case-insensitively) and the token "Yes" occurs at some later position. -/
def PolicyAffirmed (p t : Str) : Prop :=
  ∃ a pl b y c, t = a ++ pl ++ b ++ y ++ c ∧ ciEq pl p ∧ ciEq y yesTok

/-- The executable policy scanner agrees with the declarative reading,
for nonempty policy names. -/
theorem searchPolicy_iff (p : Str) (hne : p ≠ []) :
    ∀ t, searchPolicy p t = true ↔ PolicyAffirmed p t := by
  intro t
  induction t with
  | nil =>
    simp only [searchPolicy, Bool.false_eq_true, false_iff]
    rintro ⟨a, pl, b, y, c, hs, hpl, hy⟩
    have : a = [] ∧ pl = [] := by
      cases a with
      | nil =>
        cases pl with
        | nil => exact ⟨rfl, rfl⟩
        | cons x xs => simp at hs
      | cons x xs => simp at hs
    exact hne (by simpa [this.2, ciEq, eq_comm, List.map_eq_nil_iff] using hpl)
  | cons c0 cs ih =>
    simp only [searchPolicy, Bool.or_eq_true]
    constructor
    · rintro (h | h)
      · rcases hdrop : ciDrop p (c0 :: cs) with _ | r
        · rw [hdrop] at h
          simp at h
        · rw [hdrop] at h
          obtain ⟨lab, hs, hci⟩ := ciDrop_some p (c0 :: cs) r hdrop
          obtain ⟨u, mid, v, hr, hymid⟩ := (hasLitFrom_iff yesTok (by decide) r).mp h
          exact ⟨[], lab, u, mid, v, by simp [hs, hr], hci, hymid⟩
      · obtain ⟨a, pl, b, y, v, hs, hpl, hy⟩ := ih.mp h
        exact ⟨c0 :: a, pl, b, y, v, by simp [hs], hpl, hy⟩
    · rintro ⟨a, pl, b, y, v, hs, hpl, hy⟩
      cases a with
      | nil =>
        left
        simp only [List.nil_append] at hs
        rw [hs, List.append_assoc, List.append_assoc,
          ciDrop_of_ciEq p pl (b ++ (y ++ v)) hpl]
        exact (hasLitFrom_iff yesTok (by decide) (b ++ (y ++ v))).mpr ⟨b, y, v, by simp, hy⟩
      | cons x xs =>
        right
        simp only [List.cons_append, List.cons.injEq] at hs
        exact ih.mpr ⟨xs, pl, b, y, v, by simp [hs.2], hpl, hy⟩

/-- C5: policy_count counts, over the five checklist policies, those whose
name occurs in the concatenated scanned text followed at any later
position (including across line breaks, by DOTALL) by the token "Yes",
all case-insensitively; each policy contributes at most one, so the count
is an integer in [0, 5]. -/
theorem C5_policy_count_characterization :
    (∀ ft, policyCount ft = policies.countP (fun p => searchPolicy p ft) ∧ policyCount ft ≤ 5) ∧
    (∀ p ft, p ∈ policies → (searchPolicy p ft = true ↔ PolicyAffirmed p ft)) := by
  constructor
  · intro ft
    exact ⟨rfl, List.countP_le_length _⟩
  · intro p ft hp
    have hne : p ≠ [] := by
      simp only [policies, List.mem_cons, List.not_mem_nil, or_false] at hp
      rcases hp with rfl | rfl | rfl | rfl | rfl <;> decide
    exact searchPolicy_iff p hne ft

/-- Concrete text used to instantiate the C5 characterization. -/
def pageC5 : Str := "Climate Change Policy ...... page break\n...... Yes".data

/-- C5 witness: the characterization instantiates at a concrete policy
and text. -/
theorem C5_policy_count_witness :
    ("Climate Change Policy".data ∈ policies) ∧
    (searchPolicy ("Climate Change Policy".data) pageC5 = true ↔
      PolicyAffirmed ("Climate Change Policy".data) pageC5) :=
  ⟨by decide, C5_policy_count_characterization.2 ("Climate Change Policy".data) pageC5 (by decide)⟩

/-- Modelled from the spec's words (section 4.4): the scoring formula
stated with min/max clamps, to be compared with the source's sequential
formulation `scoreOf`. -/
def scoreSpec (policy_count : ℕ) (csr_spend renewable_energy total_energy : ℚ) : ℚ × ℚ × ℚ :=
  let talk_score : ℚ := ((policy_count : ℚ) / 5) * 100
  let renew_mix : ℚ := if total_energy > 10 then (renewable_energy / total_energy) * 100 else 0
  let csr_component : ℚ := min ((csr_spend / 500) * 50) 50
  let walk_score : ℚ := min (renew_mix + csr_component) 100
  let risk_score : ℚ := max (talk_score - walk_score) 0
  (talk_score, walk_score, risk_score)

/-- An upper clamp written with if equals min. -/
theorem if_gt_clamp (a b : ℚ) : (if a > b then b else a) = min a b := by
  rcases le_or_lt a b with h | h
  · rw [if_neg (not_lt.mpr h), min_eq_left h]
  · rw [if_pos h, min_eq_right h.le]

/-- A lower clamp at zero written with if equals max. -/
theorem if_lt_clamp (a : ℚ) : (if a < 0 then 0 else a) = max a 0 := by
  rcases le_or_lt 0 a with h | h
  · rw [if_neg (not_lt.mpr h), max_eq_left h]
  · rw [if_pos h, max_eq_right h.le]

/-- Rounding fixes integers. -/
theorem roundHE_intCast (m : ℤ) : roundHE (m : ℚ) = m := by
  simp [roundHE]

/-- round1 fixes integers. -/
theorem round1_intCast (m : ℤ) : round1 (m : ℚ) = m := by
  have h10 : (10 : ℚ) * (m : ℚ) = ((10 * m : ℤ) : ℚ) := by push_cast; ring
  rw [round1, h10, roundHE_intCast]
  push_cast
  ring

/-- C1: the scoring engine is a pure function of (policy_count, csr_spend,
renewable_energy, total_energy) equal to the spec's clamped formula, each
score being rounded to one decimal place in the output record; at
total_energy=1000, renewable_energy=400, csr_spend=500, policy_count=5 it
yields walk_score=90, talk_score=100, risk_score=10 (also after
rounding). -/
theorem C1_scoring_engine :
    (∀ (pc : ℕ) (c r te : ℚ), scoreOf pc c r te = scoreSpec pc c r te) ∧
    scoreOf 5 500 400 1000 = (100, 90, 10) ∧
    round1 100 = 100 ∧ round1 90 = 90 ∧ round1 10 = 10 := by
  refine ⟨?_, ?_, ?_, ?_, ?_⟩
  · intro pc c r te
    simp only [scoreOf, scoreSpec, if_gt_clamp, if_lt_clamp]
  · norm_num [scoreOf, min_def]
  · simpa using round1_intCast 100
  · simpa using round1_intCast 90
  · simpa using round1_intCast 10

/-! ## Characterization of the field-pattern scanner (C3) -/

/-- Case-insensitive equality preserves length. -/
theorem ciEq_length {a b : Str} (h : ciEq a b) : a.length = b.length := by
  have := congrArg List.length h
  simpa using this

/-- The numeric token and the remainder reassemble the input. -/
theorem takeNum_append (s : Str) : (takeNum s).1 ++ (takeNum s).2 = s := by
  unfold takeNum
  split
  · next r2 heq =>
    conv_rhs => rw [← List.takeWhile_append_dropWhile numChar s]
    rw [heq]
    simp [List.takeWhile_append_dropWhile]
  · exact List.takeWhile_append_dropWhile numChar s

/-- When the head is a numeric character, the numeric token starts with
it. -/
theorem takeNum_head (c : Char) (cs : Str) (hc : numChar c = true) :
    ∃ nt, (takeNum (c :: cs)).1 = c :: nt := by
  unfold takeNum
  have htw : (c :: cs).takeWhile numChar = c :: cs.takeWhile numChar :=
    List.takeWhile_cons_of_pos hc
  split
  · next r2 heq =>
    exact ⟨cs.takeWhile numChar ++ '.' :: r2.takeWhile Char.isDigit, by simp [htw]⟩
  · exact ⟨cs.takeWhile numChar, by simp [htw]⟩

/-- Soundness of the lazy-gap numeric scan: on success the input splits as
gap ++ num ++ rest, the gap avoids newlines unless DOTALL, and the numeric
group starts with a numeric character. -/
theorem findNumAfter_sound (d : Bool) :
    ∀ (s gap num : Str), findNumAfter d s = some (gap, num) →
      (∃ rest, s = gap ++ num ++ rest) ∧ (∀ x ∈ gap, d = true ∨ x ≠ '\n') ∧
      ∃ c0 nt, num = c0 :: nt ∧ numChar c0 = true := by
  intro s
  induction s with
  | nil =>
    intro gap num h
    simp [findNumAfter] at h
  | cons c cs ih =>
    intro gap num h
    simp only [findNumAfter] at h
    by_cases hc : numChar c = true
    · rw [if_pos hc] at h
      injection h with h2
      injection h2 with hg hn
      obtain ⟨nt, hnt⟩ := takeNum_head c cs hc
      refine ⟨⟨(takeNum (c :: cs)).2, ?_⟩, by simp [← hg], c, nt, by rw [← hn, hnt], hc⟩
      rw [← hg, ← hn]
      simpa using (takeNum_append (c :: cs)).symm
    · rw [if_neg hc] at h
      by_cases hd : (d || !(c == '\n')) = true
      · rw [if_pos hd] at h
        rcases hrec : findNumAfter d cs with _ | ⟨gap2, num2⟩
        · rw [hrec] at h
          cases h
        · rw [hrec] at h
          injection h with h2
          injection h2 with hg hn
          obtain ⟨⟨rest, hcs⟩, hgap, hnum⟩ := ih gap2 num2 hrec
          subst hn
          refine ⟨⟨rest, by simp [← hg, hcs]⟩, ?_, hnum⟩
          intro x hx
          rw [← hg] at hx
          rcases List.mem_cons.mp hx with rfl | hx2
          · rcases Bool.or_eq_true_iff.mp hd with h1 | h1
            · exact Or.inl h1
            · exact Or.inr (by simpa using h1)
          · exact hgap x hx2
      · rw [if_neg hd] at h
        cases h

/-- Completeness of the lazy-gap numeric scan. -/
theorem findNumAfter_complete (d : Bool) :
    ∀ (gap : Str), (∀ x ∈ gap, d = true ∨ x ≠ '\n') →
      ∀ (c0 : Char) (v : Str), numChar c0 = true →
        (findNumAfter d (gap ++ c0 :: v)).isSome = true := by
  intro gap
  induction gap with
  | nil =>
    intro _ c0 v hc
    simp [findNumAfter, hc]
  | cons g gs ih =>
    intro hgap c0 v hc
    simp only [List.cons_append, findNumAfter]
    by_cases hg : numChar g = true
    · simp [hg]
    · have hcnd : (d || !(g == '\n')) = true := by
        rcases hgap g (by simp) with h | h
        · simp [h]
        · simp [h]
      rw [if_neg hg, if_pos hcnd]
      have hrec := ih (fun x hx => hgap x (by simp [hx])) c0 v hc
      rcases hfa : findNumAfter d (gs ++ c0 :: v) with _ | ⟨a, b⟩
      · rw [hfa] at hrec
        simp at hrec
      · simp [hfa]

/-- Soundness of a single anchored label attempt. -/
theorem tryLabel_sound (d : Bool) (L s g0 g2 : Str) (h : tryLabel d L s = some (g0, g2)) :
    ∃ lab gap c0 nt rest, s = lab ++ gap ++ c0 :: nt ++ rest ∧ ciEq lab L ∧
      (∀ x ∈ gap, d = true ∨ x ≠ '\n') ∧ numChar c0 = true ∧ g2 = c0 :: nt := by
  rcases hdrop : ciDrop L s with _ | r
  · simp only [tryLabel, hdrop] at h
    exact Option.noConfusion h
  · simp only [tryLabel, hdrop] at h
    rcases hfa : findNumAfter d r with _ | ⟨gap, num⟩
    · simp only [hfa] at h
      exact Option.noConfusion h
    · simp only [hfa] at h
      injection h with h2
      injection h2 with hg0 hg2
      obtain ⟨lab, hs, hci⟩ := ciDrop_some L s r hdrop
      obtain ⟨⟨rest, hr⟩, hgap, c0, nt, hnum, hc0⟩ := findNumAfter_sound d r gap num hfa
      subst hnum
      exact ⟨lab, gap, c0, nt, rest, by simp [hs, hr], hci, hgap, hc0, hg2.symm⟩

/-- Completeness of a single anchored label attempt. -/
theorem tryLabel_complete (d : Bool) (L lab gap : Str) (c0 : Char) (v : Str)
    (hci : ciEq lab L) (hgap : ∀ x ∈ gap, d = true ∨ x ≠ '\n') (hc0 : numChar c0 = true) :
    (tryLabel d L (lab ++ gap ++ c0 :: v)).isSome = true := by
  unfold tryLabel
  rw [List.append_assoc, ciDrop_of_ciEq L lab (gap ++ c0 :: v) hci]
  have hfa := findNumAfter_complete d gap hgap c0 v hc0
  rcases h : findNumAfter d (gap ++ c0 :: v) with _ | ⟨a, b⟩
  · rw [h] at hfa
    simp at hfa
  · simp [h]

/-- Declarative reading of the field pattern `(L1|L2).*?NUM`: some label
occurs (case-insensitively) followed by a gap whose characters satisfy
the dot semantics (no newline unless DOTALL), then a numeric character. -/
def LNMatch (labels : List Str) (dotall : Bool) (t : Str) : Prop :=
  ∃ u L lab gap c0 v, t = u ++ lab ++ gap ++ c0 :: v ∧ L ∈ labels ∧ ciEq lab L ∧
    (∀ x ∈ gap, dotall = true ∨ x ≠ '\n') ∧ numChar c0 = true

/-- The executable field scanner matches exactly when the declarative
pattern reading holds. -/
theorem searchLN_isSome_iff (labels : List Str) (d : Bool) :
    ∀ t, (searchLN labels d t).isSome = true ↔ LNMatch labels d t := by
  intro t
  induction t with
  | nil =>
    simp only [searchLN, Option.isSome_none, Bool.false_eq_true, false_iff]
    rintro ⟨u, L, lab, gap, c0, v, hs, -, -, -, -⟩
    have hlen := congrArg List.length hs
    simp at hlen
    omega
  | cons c cs ih =>
    simp only [searchLN]
    constructor
    · intro h
      rcases hma : matchAt labels d (c :: cs) with _ | r
      · rw [hma] at h
        obtain ⟨u, L, lab, gap, c0, v, hs, hL, hci, hgap, hc0⟩ := ih.mp h
        exact ⟨c :: u, L, lab, gap, c0, v, by simp [hs], hL, hci, hgap, hc0⟩
      · obtain ⟨L, hL, htry⟩ := List.exists_of_findSome?_eq_some hma
        obtain ⟨g0, g2⟩ := r
        obtain ⟨lab, gap, c0, nt, rest, hs, hci, hgap, hc0, -⟩ :=
          tryLabel_sound d L (c :: cs) g0 g2 htry
        exact ⟨[], L, lab, gap, c0, nt ++ rest, by simpa using hs, hL, hci, hgap, hc0⟩
    · rintro ⟨u, L, lab, gap, c0, v, hs, hL, hci, hgap, hc0⟩
      cases u with
      | nil =>
        simp only [List.nil_append] at hs
        have htry := tryLabel_complete d L lab gap c0 v hci hgap hc0
        rw [← hs] at htry
        have hsome : (matchAt labels d (c :: cs)).isSome = true := by
          rcases htl : tryLabel d L (c :: cs) with _ | r
          · rw [htl] at htry
            simp at htry
          · unfold matchAt
            rcases hfs : (labels.findSome? fun M => tryLabel d M (c :: cs)) with _ | r2
            · have hnone := List.findSome?_eq_none_iff.mp hfs L hL
              rw [htl] at hnone
              cases hnone
            · simp
        rcases hma : matchAt labels d (c :: cs) with _ | r2
        · rw [hma] at hsome
          simp at hsome
        · simp
      | cons a as =>
        simp only [List.cons_append, List.cons.injEq] at hs
        have hrec := ih.mpr ⟨as, L, lab, gap, c0, v, hs.2, hL, hci, hgap, hc0⟩
        rcases hma : matchAt labels d (c :: cs) with _ | r
        · simpa using hrec
        · simp

/-- Declarative reading of the field pattern without DOTALL: the gap
between the label and the numeric character may contain any characters
except newline. -/
def LNMatchLine (labels : List Str) (t : Str) : Prop :=
  ∃ u L lab gap c0 v, t = u ++ lab ++ gap ++ c0 :: v ∧ L ∈ labels ∧ ciEq lab L ∧
    (∀ x ∈ gap, x ≠ '\n') ∧ numChar c0 = true

/-- The four field-pattern label sets of the extractor. -/
def fieldLabelSets : List (List Str) := [csrLabels, renLabels, enLabels, ghgLabels]

/-- C3 (amended): the field search is not anchored to line boundaries in
the sense that the gap between label and number may span arbitrary
non-newline characters, but it cannot cross a newline: the patterns are
compiled without DOTALL, so a label on one line with the numeric value on
a later line of the same page does not match. -/
theorem C3_match_cannot_cross_newline :
    ∀ labels, labels ∈ fieldLabelSets →
      ∀ t, (searchLN labels false t).isSome = true ↔ LNMatchLine labels t := by
  intro labels _ t
  rw [searchLN_isSome_iff labels false t]
  constructor
  · rintro ⟨u, L, lab, gap, c0, v, hs, hL, hci, hgap, hc0⟩
    refine ⟨u, L, lab, gap, c0, v, hs, hL, hci, ?_, hc0⟩
    intro x hx
    rcases hgap x hx with h | h
    · exact absurd h (by simp)
    · exact h
  · rintro ⟨u, L, lab, gap, c0, v, hs, hL, hci, hgap, hc0⟩
    exact ⟨u, L, lab, gap, c0, v, hs, hL, hci, fun x hx => Or.inr (hgap x hx), hc0⟩

/-- A page with the CSR label on one line and the number on the next. -/
def pageC3 : Str := "CSR Expenditure\n42".data

/-- C3 counterexample: on a page where the label is on one line and the
numeric value on the next line, the extractor's search (no DOTALL) finds
nothing, while the same pattern under DOTALL would match; this refutes
the claim that a match may span across newlines within a page. -/
theorem C3_counterexample :
    searchLN csrLabels false pageC3 = none ∧
    searchLN csrLabels true pageC3 = some ("CSR Expenditure\n42".data, "42".data) := by
  constructor
  · rfl
  · rfl

/-- A page where label and value share a line, with a gap of spaces. -/
def pageC3w : Str := "CSR Expenditure : 1,234.5 Cr".data

/-- C3 witness: the amended characterization instantiates at the CSR label
set and a same-line page, whose declarative decomposition is explicit. -/
theorem C3_witness : (searchLN csrLabels false pageC3w).isSome = true :=
  (C3_match_cannot_cross_newline csrLabels (by simp [fieldLabelSets]) pageC3w).mpr
    ⟨[], "CSR Expenditure".data, "CSR Expenditure".data, " : ".data, '1', ",234.5 Cr".data,
      by decide, by simp [csrLabels], rfl, by decide, by decide⟩

/-! ## C7: per-file failure isolation -/

/-- A file mapped to none contributes nothing to a filterMap batch. -/
theorem filterMap_middle_none {α β : Type} (f : α → Option β) (l1 l2 : List α) (a : α)
    (h : f a = none) : (l1 ++ a :: l2).filterMap f = (l1 ++ l2).filterMap f := by
  simp [List.filterMap_append, List.filterMap_cons, h]

/-- C7: a file whose per-file pipeline raises (modelled: produces none)
contributes no record, surfaces no error, and the batch result equals the
run without that file. -/
theorem C7_failing_file_isolated :
    ∀ (pre post : List Doc) (d : Doc), processFile d.filename d.pages = none →
      processPdfs (pre ++ d :: post) = processPdfs (pre ++ post) := by
  intro pre post d h
  unfold processPdfs
  exact filterMap_middle_none _ pre post d h

/-- An unreadable file: pdfplumber.open raises. -/
def badDoc : Doc := ⟨"broken.pdf".data, none⟩

/-- An openable file with no pages. -/
def goodDocC7 : Doc := ⟨"ok.pdf".data, some []⟩

/-- C7 witness: a concrete batch with an unreadable file equals the batch
without it. -/
theorem C7_failing_file_isolated_witness :
    processPdfs [goodDocC7, badDoc] = processPdfs [goodDocC7] := by
  have h := C7_failing_file_isolated [goodDocC7] [] badDoc rfl
  simpa using h

/-! ## C10: a None page text aborts the whole document -/

/-- A None page anywhere in the scanned list aborts the scan. -/
theorem runPages_none_mem :
    ∀ (qs : List (Option Str)) (s : ExtractState) (ft : Str), none ∈ qs →
      runPages s ft qs = none := by
  intro qs
  induction qs with
  | nil =>
    intro s ft h
    simp at h
  | cons q qt ih =>
    intro s ft h
    cases q with
    | none => rfl
    | some t =>
      have h2 : none ∈ qt := by simpa using h
      simp only [runPages]
      rcases stepPage s t with _ | s2
      · rfl
      · exact ih s2 (ft ++ t) h2

/-- C10: a page among the first 10 whose text extraction yields None makes
the per-document handler catch the TypeError from `full_text += text`, so
the whole document is excluded from the result set, regardless of matches
on earlier pages. -/
theorem C10_none_page_excludes_document :
    ∀ (fn : Str) (ps : List (Option Str)), none ∈ ps.take 10 →
      processFile fn (some ps) = none ∧
      ∀ (pre post : List Doc),
        processPdfs (pre ++ ⟨fn, some ps⟩ :: post) = processPdfs (pre ++ post) := by
  intro fn ps h
  have hpf : processFile fn (some ps) = none := by
    have hrp := runPages_none_mem (ps.take 10) initState [] h
    simp only [processFile, hrp]
  refine ⟨hpf, fun pre post => ?_⟩
  unfold processPdfs
  exact filterMap_middle_none _ pre post ⟨fn, some ps⟩ hpf

/-- Pages for the C10 witness: a matching first page, then a None page. -/
def pagesC10 : List (Option Str) := [some ("CSR Expenditure 5".data), none]

/-- C10 witness: the first page matched the CSR pattern, yet the None
second page excludes the document. -/
theorem C10_witness :
    (searchLN csrLabels false ("CSR Expenditure 5".data)).isSome = true ∧
    processFile ("w.pdf".data) (some pagesC10) = none :=
  ⟨by decide, (C10_none_page_excludes_document ("w.pdf".data) pagesC10 (by decide)).1⟩

/-! ## Step lemmas for the four field blocks -/

/-- With no match on the page, the CSR block leaves the state unchanged. -/
theorem stepCsr_nomatch (s : ExtractState) (t : Str) (h : searchLN csrLabels false t = none) :
    stepCsr s t = some s := by
  unfold stepCsr
  split
  · rw [h]
  · rfl

/-- Once csr_spend differs from its default 0, the CSR search is skipped. -/
theorem stepCsr_skip (s : ExtractState) (t : Str) (h : s.csr_spend ≠ 0) :
    stepCsr s t = some s := by
  unfold stepCsr
  rw [if_neg h]

/-- A CSR match that parses stores the value and the snippet. -/
theorem stepCsr_hit (s : ExtractState) (t g0 g2 : Str) (v : ℚ)
    (h0 : s.csr_spend = 0) (hs : searchLN csrLabels false t = some (g0, g2))
    (hv : pyFloat? (stripCommas g2) = some v) :
    stepCsr s t = some { s with csr_spend := v, csr_snippet := g0 } := by
  unfold stepCsr
  rw [if_pos h0]
  simp only [hs, hv]

/-- A CSR match whose numeric group fails float() raises. -/
theorem stepCsr_fail (s : ExtractState) (t g0 g2 : Str)
    (h0 : s.csr_spend = 0) (hs : searchLN csrLabels false t = some (g0, g2))
    (hv : pyFloat? (stripCommas g2) = none) :
    stepCsr s t = none := by
  unfold stepCsr
  rw [if_pos h0]
  simp only [hs, hv]

/-- The CSR block never touches the other fields. -/
theorem stepCsr_pres (s s2 : ExtractState) (t : Str) (h : stepCsr s t = some s2) :
    s2.renewable_energy = s.renewable_energy ∧ s2.renew_snippet = s.renew_snippet ∧
    s2.total_energy = s.total_energy ∧ s2.ghg_emissions = s.ghg_emissions := by
  unfold stepCsr at h
  by_cases hc : s.csr_spend = 0
  · rw [if_pos hc] at h
    rcases hsr : searchLN csrLabels false t with _ | ⟨g0, g2⟩
    · simp only [hsr] at h
      injection h with h
      subst h
      exact ⟨rfl, rfl, rfl, rfl⟩
    · simp only [hsr] at h
      rcases hv : pyFloat? (stripCommas g2) with _ | v
      · simp only [hv] at h
        exact Option.noConfusion h
      · simp only [hv] at h
        injection h with h
        subst h
        exact ⟨rfl, rfl, rfl, rfl⟩
  · rw [if_neg hc] at h
    injection h with h
    subst h
    exact ⟨rfl, rfl, rfl, rfl⟩

/-- With no match on the page, the renewable block leaves the state
unchanged. -/
theorem stepRenew_nomatch (s : ExtractState) (t : Str) (h : searchLN renLabels false t = none) :
    stepRenew s t = some s := by
  unfold stepRenew
  split
  · rw [h]
  · rfl

/-- Once renewable_energy differs from its default 0, its search is
skipped. -/
theorem stepRenew_skip (s : ExtractState) (t : Str) (h : s.renewable_energy ≠ 0) :
    stepRenew s t = some s := by
  unfold stepRenew
  rw [if_neg h]

/-- A renewable match that parses stores the value and the snippet. -/
theorem stepRenew_hit (s : ExtractState) (t g0 g2 : Str) (v : ℚ)
    (h0 : s.renewable_energy = 0) (hs : searchLN renLabels false t = some (g0, g2))
    (hv : pyFloat? (stripCommas g2) = some v) :
    stepRenew s t = some { s with renewable_energy := v, renew_snippet := g0 } := by
  unfold stepRenew
  rw [if_pos h0]
  simp only [hs, hv]

/-- A renewable match whose numeric group fails float() raises. -/
theorem stepRenew_fail (s : ExtractState) (t g0 g2 : Str)
    (h0 : s.renewable_energy = 0) (hs : searchLN renLabels false t = some (g0, g2))
    (hv : pyFloat? (stripCommas g2) = none) :
    stepRenew s t = none := by
  unfold stepRenew
  rw [if_pos h0]
  simp only [hs, hv]

/-- The renewable block never touches the other fields. -/
theorem stepRenew_pres (s s2 : ExtractState) (t : Str) (h : stepRenew s t = some s2) :
    s2.csr_spend = s.csr_spend ∧ s2.csr_snippet = s.csr_snippet ∧
    s2.total_energy = s.total_energy ∧ s2.ghg_emissions = s.ghg_emissions := by
  unfold stepRenew at h
  by_cases hc : s.renewable_energy = 0
  · rw [if_pos hc] at h
    rcases hsr : searchLN renLabels false t with _ | ⟨g0, g2⟩
    · simp only [hsr] at h
      injection h with h
      subst h
      exact ⟨rfl, rfl, rfl, rfl⟩
    · simp only [hsr] at h
      rcases hv : pyFloat? (stripCommas g2) with _ | v
      · simp only [hv] at h
        exact Option.noConfusion h
      · simp only [hv] at h
        injection h with h
        subst h
        exact ⟨rfl, rfl, rfl, rfl⟩
  · rw [if_neg hc] at h
    injection h with h
    subst h
    exact ⟨rfl, rfl, rfl, rfl⟩

/-- With no match on the page, the total-energy block leaves the state
unchanged. -/
theorem stepTotal_nomatch (s : ExtractState) (t : Str) (h : searchLN enLabels false t = none) :
    stepTotal s t = some s := by
  unfold stepTotal
  split
  · rw [h]
  · rfl

/-- Once total_energy differs from its sentinel 1.0, its search is
skipped. -/
theorem stepTotal_skip (s : ExtractState) (t : Str) (h : s.total_energy ≠ 1) :
    stepTotal s t = some s := by
  unfold stepTotal
  rw [if_neg h]

/-- A total-energy match that parses stores the value (no snippet). -/
theorem stepTotal_hit (s : ExtractState) (t g0 g2 : Str) (v : ℚ)
    (h0 : s.total_energy = 1) (hs : searchLN enLabels false t = some (g0, g2))
    (hv : pyFloat? (stripCommas g2) = some v) :
    stepTotal s t = some { s with total_energy := v } := by
  unfold stepTotal
  rw [if_pos h0]
  simp only [hs, hv]

/-- A total-energy match whose numeric group fails float() raises. -/
theorem stepTotal_fail (s : ExtractState) (t g0 g2 : Str)
    (h0 : s.total_energy = 1) (hs : searchLN enLabels false t = some (g0, g2))
    (hv : pyFloat? (stripCommas g2) = none) :
    stepTotal s t = none := by
  unfold stepTotal
  rw [if_pos h0]
  simp only [hs, hv]

/-- The total-energy block never touches the other fields. -/
theorem stepTotal_pres (s s2 : ExtractState) (t : Str) (h : stepTotal s t = some s2) :
    s2.csr_spend = s.csr_spend ∧ s2.csr_snippet = s.csr_snippet ∧
    s2.renewable_energy = s.renewable_energy ∧ s2.renew_snippet = s.renew_snippet ∧
    s2.ghg_emissions = s.ghg_emissions := by
  unfold stepTotal at h
  by_cases hc : s.total_energy = 1
  · rw [if_pos hc] at h
    rcases hsr : searchLN enLabels false t with _ | ⟨g0, g2⟩
    · simp only [hsr] at h
      injection h with h
      subst h
      exact ⟨rfl, rfl, rfl, rfl, rfl⟩
    · simp only [hsr] at h
      rcases hv : pyFloat? (stripCommas g2) with _ | v
      · simp only [hv] at h
        exact Option.noConfusion h
      · simp only [hv] at h
        injection h with h
        subst h
        exact ⟨rfl, rfl, rfl, rfl, rfl⟩
  · rw [if_neg hc] at h
    injection h with h
    subst h
    exact ⟨rfl, rfl, rfl, rfl, rfl⟩

/-- With no match on the page, the GHG block leaves the state unchanged. -/
theorem stepGhg_nomatch (s : ExtractState) (t : Str) (h : searchLN ghgLabels false t = none) :
    stepGhg s t = some s := by
  unfold stepGhg
  split
  · rw [h]
  · rfl

/-- Once ghg_emissions differs from its default 0, its search is
skipped. -/
theorem stepGhg_skip (s : ExtractState) (t : Str) (h : s.ghg_emissions ≠ 0) :
    stepGhg s t = some s := by
  unfold stepGhg
  rw [if_neg h]

/-- A GHG match that parses stores the value (no snippet). -/
theorem stepGhg_hit (s : ExtractState) (t g0 g2 : Str) (v : ℚ)
    (h0 : s.ghg_emissions = 0) (hs : searchLN ghgLabels false t = some (g0, g2))
    (hv : pyFloat? (stripCommas g2) = some v) :
    stepGhg s t = some { s with ghg_emissions := v } := by
  unfold stepGhg
  rw [if_pos h0]
  simp only [hs, hv]

/-- A GHG match whose numeric group fails float() raises. -/
theorem stepGhg_fail (s : ExtractState) (t g0 g2 : Str)
    (h0 : s.ghg_emissions = 0) (hs : searchLN ghgLabels false t = some (g0, g2))
    (hv : pyFloat? (stripCommas g2) = none) :
    stepGhg s t = none := by
  unfold stepGhg
  rw [if_pos h0]
  simp only [hs, hv]

/-- The GHG block never touches the other fields. -/
theorem stepGhg_pres (s s2 : ExtractState) (t : Str) (h : stepGhg s t = some s2) :
    s2.csr_spend = s.csr_spend ∧ s2.csr_snippet = s.csr_snippet ∧
    s2.renewable_energy = s.renewable_energy ∧ s2.renew_snippet = s.renew_snippet ∧
    s2.total_energy = s.total_energy := by
  unfold stepGhg at h
  by_cases hc : s.ghg_emissions = 0
  · rw [if_pos hc] at h
    rcases hsr : searchLN ghgLabels false t with _ | ⟨g0, g2⟩
    · simp only [hsr] at h
      injection h with h
      subst h
      exact ⟨rfl, rfl, rfl, rfl, rfl⟩
    · simp only [hsr] at h
      rcases hv : pyFloat? (stripCommas g2) with _ | v
      · simp only [hv] at h
        exact Option.noConfusion h
      · simp only [hv] at h
        injection h with h
        subst h
        exact ⟨rfl, rfl, rfl, rfl, rfl⟩
  · rw [if_neg hc] at h
    injection h with h
    subst h
    exact ⟨rfl, rfl, rfl, rfl, rfl⟩

/-! ## Page-loop lemmas -/

/-- Decompose a page-loop run over an appended page list. -/
theorem runPages_append (l1 l2 : List (Option Str)) :
    ∀ s ft, runPages s ft (l1 ++ l2) =
      (runPages s ft l1).bind (fun p => runPages p.1 p.2 l2) := by
  induction l1 with
  | nil =>
    intro s ft
    simp [runPages]
  | cons q qt ih =>
    intro s ft
    cases q with
    | none => rfl
    | some t =>
      simp only [List.cons_append, runPages]
      rcases stepPage s t with _ | s2
      · rfl
      · exact ih s2 (ft ++ t)

/-- A successful page step decomposes into the four successive blocks. -/
theorem stepPage_parts (s s4 : ExtractState) (t : Str) (h : stepPage s t = some s4) :
    ∃ s1 s2 s3, stepCsr s t = some s1 ∧ stepRenew s1 t = some s2 ∧
      stepTotal s2 t = some s3 ∧ stepGhg s3 t = some s4 := by
  simp only [stepPage, Option.bind_eq_some] at h
  obtain ⟨s1, h1, s2, h2, s3, h3, h4⟩ := h
  exact ⟨s1, s2, s3, h1, h2, h3, h4⟩

/-- A page step preserves a non-default csr_spend and its snippet. -/
theorem stepPage_pres_csr (s s4 : ExtractState) (t : Str) (h : stepPage s t = some s4)
    (hc : s.csr_spend ≠ 0) : s4.csr_spend = s.csr_spend ∧ s4.csr_snippet = s.csr_snippet := by
  obtain ⟨s1, s2, s3, h1, h2, h3, h4⟩ := stepPage_parts s s4 t h
  rw [stepCsr_skip s t hc] at h1
  injection h1 with h1
  subst h1
  obtain ⟨ha, hb, -, -⟩ := stepRenew_pres s s2 t h2
  obtain ⟨hc2, hd, -, -, -⟩ := stepTotal_pres s2 s3 t h3
  obtain ⟨he, hf, -, -, -⟩ := stepGhg_pres s3 s4 t h4
  exact ⟨by rw [he, hc2, ha], by rw [hf, hd, hb]⟩

/-- A page step preserves a non-default renewable_energy and its
snippet. -/
theorem stepPage_pres_renew (s s4 : ExtractState) (t : Str) (h : stepPage s t = some s4)
    (hc : s.renewable_energy ≠ 0) :
    s4.renewable_energy = s.renewable_energy ∧ s4.renew_snippet = s.renew_snippet := by
  obtain ⟨s1, s2, s3, h1, h2, h3, h4⟩ := stepPage_parts s s4 t h
  obtain ⟨ha, hb, -, -⟩ := stepCsr_pres s s1 t h1
  rw [stepRenew_skip s1 t (by rw [ha]; exact hc)] at h2
  injection h2 with h2
  subst h2
  obtain ⟨-, -, hc2, hd, -⟩ := stepTotal_pres s1 s3 t h3
  obtain ⟨-, -, he, hf, -⟩ := stepGhg_pres s3 s4 t h4
  exact ⟨by rw [he, hc2, ha], by rw [hf, hd, hb]⟩

/-- A page step preserves a non-sentinel total_energy. -/
theorem stepPage_pres_total (s s4 : ExtractState) (t : Str) (h : stepPage s t = some s4)
    (hc : s.total_energy ≠ 1) : s4.total_energy = s.total_energy := by
  obtain ⟨s1, s2, s3, h1, h2, h3, h4⟩ := stepPage_parts s s4 t h
  obtain ⟨-, -, ha, -⟩ := stepCsr_pres s s1 t h1
  obtain ⟨-, -, hb, -⟩ := stepRenew_pres s1 s2 t h2
  rw [stepTotal_skip s2 t (by rw [hb, ha]; exact hc)] at h3
  injection h3 with h3
  subst h3
  obtain ⟨-, -, -, -, hd⟩ := stepGhg_pres s2 s4 t h4
  rw [hd, hb, ha]

/-- A page step preserves a non-default ghg_emissions. -/
theorem stepPage_pres_ghg (s s4 : ExtractState) (t : Str) (h : stepPage s t = some s4)
    (hc : s.ghg_emissions ≠ 0) : s4.ghg_emissions = s.ghg_emissions := by
  obtain ⟨s1, s2, s3, h1, h2, h3, h4⟩ := stepPage_parts s s4 t h
  obtain ⟨-, -, -, ha⟩ := stepCsr_pres s s1 t h1
  obtain ⟨-, -, -, hb⟩ := stepRenew_pres s1 s2 t h2
  obtain ⟨-, -, -, -, hc2⟩ := stepTotal_pres s2 s3 t h3
  rw [stepGhg_skip s3 t (by rw [hc2, hb, ha]; exact hc)] at h4
  injection h4 with h4
  subst h4
  rw [hc2, hb, ha]

/-- A page with no match for any field pattern leaves the state
unchanged. -/
theorem stepPage_nomatch (s : ExtractState) (t : Str)
    (h1 : searchLN csrLabels false t = none) (h2 : searchLN renLabels false t = none)
    (h3 : searchLN enLabels false t = none) (h4 : searchLN ghgLabels false t = none) :
    stepPage s t = some s := by
  simp [stepPage, stepCsr_nomatch s t h1, stepRenew_nomatch s t h2,
    stepTotal_nomatch s t h3, stepGhg_nomatch s t h4]

/-- The page loop preserves every field already holding a non-default
value, together with its evidence snippet. -/
theorem runPages_pres :
    ∀ (qs : List (Option Str)) (s : ExtractState) (ft : Str) (s2 : ExtractState) (ft2 : Str),
      runPages s ft qs = some (s2, ft2) →
      (s.csr_spend ≠ 0 → s2.csr_spend = s.csr_spend ∧ s2.csr_snippet = s.csr_snippet) ∧
      (s.renewable_energy ≠ 0 →
        s2.renewable_energy = s.renewable_energy ∧ s2.renew_snippet = s.renew_snippet) ∧
      (s.total_energy ≠ 1 → s2.total_energy = s.total_energy) ∧
      (s.ghg_emissions ≠ 0 → s2.ghg_emissions = s.ghg_emissions) := by
  intro qs
  induction qs with
  | nil =>
    intro s ft s2 ft2 h
    simp only [runPages] at h
    injection h with h
    rw [(Prod.mk.injEq _ _ _ _).mp h |>.1]
    exact ⟨fun _ => ⟨rfl, rfl⟩, fun _ => ⟨rfl, rfl⟩, fun _ => rfl, fun _ => rfl⟩
  | cons q qt ih =>
    intro s ft s2 ft2 h
    cases q with
    | none => exact Option.noConfusion h
    | some t =>
      simp only [runPages] at h
      rcases hsp : stepPage s t with _ | sm
      · rw [hsp] at h
        exact Option.noConfusion h
      · rw [hsp] at h
        have hrec := ih sm (ft ++ t) s2 ft2 h
        refine ⟨?_, ?_, ?_, ?_⟩
        · intro hcs
          obtain ⟨ha, hb⟩ := stepPage_pres_csr s sm t hsp hcs
          obtain ⟨hc2, hd⟩ := hrec.1 (by rw [ha]; exact hcs)
          exact ⟨by rw [hc2, ha], by rw [hd, hb]⟩
        · intro hcs
          obtain ⟨ha, hb⟩ := stepPage_pres_renew s sm t hsp hcs
          obtain ⟨hc2, hd⟩ := hrec.2.1 (by rw [ha]; exact hcs)
          exact ⟨by rw [hc2, ha], by rw [hd, hb]⟩
        · intro hcs
          have ha := stepPage_pres_total s sm t hsp hcs
          have hb := hrec.2.2.1 (by rw [ha]; exact hcs)
          rw [hb, ha]
        · intro hcs
          have ha := stepPage_pres_ghg s sm t hsp hcs
          have hb := hrec.2.2.2 (by rw [ha]; exact hcs)
          rw [hb, ha]

/-- A run over match-free pages keeps the initial state. -/
theorem runPages_nomatch (qs : List Str) :
    ∀ (s : ExtractState) (ft : Str),
      (∀ t ∈ qs, searchLN csrLabels false t = none ∧ searchLN renLabels false t = none ∧
        searchLN enLabels false t = none ∧ searchLN ghgLabels false t = none) →
      ∃ ft2, runPages s ft (qs.map some) = some (s, ft2) := by
  induction qs with
  | nil =>
    intro s ft _
    exact ⟨ft, rfl⟩
  | cons t ts ih =>
    intro s ft h
    obtain ⟨h1, h2, h3, h4⟩ := h t (by simp)
    simp only [List.map_cons, runPages]
    rw [stepPage_nomatch s t h1 h2 h3 h4]
    exact ih s (ft ++ t) (fun x hx => h x (by simp [hx]))

/-- The record projections are the final extraction state's fields. -/
theorem mkRecord_fields (fn : Str) (st : ExtractState) (ft : Str) :
    (mkRecord fn st ft).csr_spend = st.csr_spend ∧
    (mkRecord fn st ft).renewable_energy = st.renewable_energy ∧
    (mkRecord fn st ft).total_energy = st.total_energy ∧
    (mkRecord fn st ft).ghg_scope1 = st.ghg_emissions ∧
    (mkRecord fn st ft).csr_evidence = st.csr_snippet ∧
    (mkRecord fn st ft).renew_evidence = st.renew_snippet ∧
    (mkRecord fn st ft).company = companyName fn ∧
    (mkRecord fn st ft).policy_count = policyCount ft :=
  ⟨rfl, rfl, rfl, rfl, rfl, rfl, rfl, rfl⟩

/-! ## C2: skipping is keyed on the stored value, not on having matched -/

/-- First page of the C2 counterexample: the CSR pattern matches and the
parsed value is 0, the field's default. -/
def pageC2a : Str := "CSR Expenditure 0 noted".data

/-- Second page of the C2 counterexample: the CSR pattern matches with
value 7. -/
def pageC2b : Str := "CSR Expenditure 7".data

/-- C2 counterexample: the CSR pattern matches on page 1 (value 0, the
default), yet page 2 is still searched and its match overwrites value and
snippet, so the stored value and evidence do not come from the first match
in the document and the search was not skipped after a match. -/
theorem C2_counterexample :
    searchLN csrLabels false pageC2a = some ("CSR Expenditure 0".data, "0".data) ∧
    pyFloat? (stripCommas ("0".data)) = some 0 ∧
    runPages initState [] [some pageC2a, some pageC2b] =
      some (⟨7, 0, 1, 0, "CSR Expenditure 7".data, notFound⟩, pageC2a ++ pageC2b) := by
  refine ⟨rfl, rfl, rfl⟩

/-- C2 (amended): the per-field skip is keyed on the stored value, not on
a match flag: once a field holds a non-default value (0 for csr_spend,
renewable_energy and ghg_emissions, 1.0 for total_energy) all later pages
leave that field and its snippet unchanged; and if no scanned page matches
a field's pattern at all, the produced record keeps the defaults and the
"Not Found" evidence sentinel. -/
theorem C2_value_keyed_first_match :
    (∀ (qs : List (Option Str)) (s : ExtractState) (ft : Str) (s2 : ExtractState) (ft2 : Str),
      runPages s ft qs = some (s2, ft2) →
      (s.csr_spend ≠ 0 → s2.csr_spend = s.csr_spend ∧ s2.csr_snippet = s.csr_snippet) ∧
      (s.renewable_energy ≠ 0 →
        s2.renewable_energy = s.renewable_energy ∧ s2.renew_snippet = s.renew_snippet) ∧
      (s.total_energy ≠ 1 → s2.total_energy = s.total_energy) ∧
      (s.ghg_emissions ≠ 0 → s2.ghg_emissions = s.ghg_emissions)) ∧
    (∀ (fn : Str) (ps : List Str),
      (∀ t ∈ ps, searchLN csrLabels false t = none ∧ searchLN renLabels false t = none ∧
        searchLN enLabels false t = none ∧ searchLN ghgLabels false t = none) →
      ∃ r, processFile fn (some (ps.map some)) = some r ∧ r.csr_spend = 0 ∧
        r.renewable_energy = 0 ∧ r.total_energy = 1 ∧ r.ghg_scope1 = 0 ∧
        r.csr_evidence = notFound ∧ r.renew_evidence = notFound) := by
  refine ⟨runPages_pres, ?_⟩
  intro fn ps h
  have hm : (ps.map some).take 10 = (ps.take 10).map some := by
    rw [List.map_take]
  obtain ⟨ft2, hrun⟩ := runPages_nomatch (ps.take 10) initState []
    (fun t ht => h t (List.take_subset 10 ps ht))
  refine ⟨mkRecord fn initState ft2, ?_, ?_, ?_, ?_, ?_, ?_, ?_⟩
  · simp only [processFile, hm, hrun]
  · exact (mkRecord_fields fn initState ft2).1
  · exact (mkRecord_fields fn initState ft2).2.1
  · exact (mkRecord_fields fn initState ft2).2.2.1
  · exact (mkRecord_fields fn initState ft2).2.2.2.1
  · exact (mkRecord_fields fn initState ft2).2.2.2.2.1
  · exact (mkRecord_fields fn initState ft2).2.2.2.2.2.1

/-- A state with all fields already non-default, for the C2 witness. -/
def stC2 : ExtractState := ⟨5, 3, 20, 2, notFound, notFound⟩

/-- A matchless page for the C2 witness. -/
def pageC2w : Str := "no figures on this page".data

/-- C2 witness: both amended conjuncts instantiate on concrete inputs. -/
theorem C2_value_keyed_first_match_witness :
    (stC2.csr_spend = 5 → stC2.csr_spend = stC2.csr_spend ∧
      stC2.csr_snippet = stC2.csr_snippet) ∧
    (∃ r, processFile ("c2w.pdf".data) (some ([pageC2w].map some)) = some r ∧
      r.csr_spend = 0 ∧ r.renewable_energy = 0 ∧ r.total_energy = 1 ∧ r.ghg_scope1 = 0 ∧
      r.csr_evidence = notFound ∧ r.renew_evidence = notFound) := by
  constructor
  · intro _
    have h := (C2_value_keyed_first_match.1 [some pageC2w] stC2 [] stC2 pageC2w rfl).1
      (by decide)
    exact h
  · exact C2_value_keyed_first_match.2 ("c2w.pdf".data) [pageC2w] (by decide)

/-! ## C9: a match parsing to the default is treated as not-yet-found -/

/-- First C9 page: CSR match parsing to the default 0, snippet captured. -/
def pageC9a : Str := "CSR Expenditure 0".data

/-- Second C9 page: CSR match with value 8. -/
def pageC9b : Str := "CSR Expenditure 8".data

/-- C9: when a field still holds its sentinel default (0 for csr_spend,
renewable_energy and ghg_emissions, 1.0 for total_energy — even if an
earlier match parsed exactly to the sentinel), a later page is searched
again for it and a match overwrites the value (and, for the two
evidence-tracking fields, the snippet); consequently a record can end
with csr_spend = 0 while its evidence snippet is a real match rather
than "Not Found". -/
theorem C9_default_value_refound :
    (∀ (s s2 : ExtractState) (t g0 g2 : Str) (v : ℚ),
      s.csr_spend = 0 → searchLN csrLabels false t = some (g0, g2) →
      pyFloat? (stripCommas g2) = some v → stepPage s t = some s2 →
      s2.csr_spend = v ∧ s2.csr_snippet = g0) ∧
    (∀ (s s2 : ExtractState) (t g0 g2 : Str) (v : ℚ),
      s.renewable_energy = 0 → searchLN renLabels false t = some (g0, g2) →
      pyFloat? (stripCommas g2) = some v → stepPage s t = some s2 →
      s2.renewable_energy = v ∧ s2.renew_snippet = g0) ∧
    (∀ (s s2 : ExtractState) (t g0 g2 : Str) (v : ℚ),
      s.total_energy = 1 → searchLN enLabels false t = some (g0, g2) →
      pyFloat? (stripCommas g2) = some v → stepPage s t = some s2 →
      s2.total_energy = v) ∧
    (∀ (s s2 : ExtractState) (t g0 g2 : Str) (v : ℚ),
      s.ghg_emissions = 0 → searchLN ghgLabels false t = some (g0, g2) →
      pyFloat? (stripCommas g2) = some v → stepPage s t = some s2 →
      s2.ghg_emissions = v) ∧
    runPages initState [] [some pageC9a] =
      some (⟨0, 0, 1, 0, pageC9a, notFound⟩, pageC9a) ∧
    (⟨0, 0, 1, 0, pageC9a, notFound⟩ : ExtractState).csr_snippet ≠ notFound ∧
    runPages initState [] [some pageC9a, some pageC9b] =
      some (⟨8, 0, 1, 0, pageC9b, notFound⟩, pageC9a ++ pageC9b) := by
  refine ⟨?_, ?_, ?_, ?_, rfl, by decide, rfl⟩
  · intro s s2 t g0 g2 v h0 hs hv h
    obtain ⟨s1, sm2, sm3, h1, h2, h3, h4⟩ := stepPage_parts s s2 t h
    rw [stepCsr_hit s t g0 g2 v h0 hs hv] at h1
    injection h1 with h1
    subst h1
    obtain ⟨ha, hb, -, -⟩ := stepRenew_pres _ sm2 t h2
    obtain ⟨hc, hd, -, -, -⟩ := stepTotal_pres sm2 sm3 t h3
    obtain ⟨he, hf, -, -, -⟩ := stepGhg_pres sm3 s2 t h4
    exact ⟨by rw [he, hc, ha], by rw [hf, hd, hb]⟩
  · intro s s2 t g0 g2 v h0 hs hv h
    obtain ⟨s1, sm2, sm3, h1, h2, h3, h4⟩ := stepPage_parts s s2 t h
    obtain ⟨-, -, -, -⟩ := stepCsr_pres s s1 t h1
    have hre : s1.renewable_energy = 0 := by
      rw [(stepCsr_pres s s1 t h1).1]
      exact h0
    rw [stepRenew_hit s1 t g0 g2 v hre hs hv] at h2
    injection h2 with h2
    subst h2
    obtain ⟨-, -, hc, hd, -⟩ := stepTotal_pres _ sm3 t h3
    obtain ⟨-, -, he, hf, -⟩ := stepGhg_pres sm3 s2 t h4
    exact ⟨by rw [he, hc], by rw [hf, hd]⟩
  · intro s s2 t g0 g2 v h0 hs hv h
    obtain ⟨s1, sm2, sm3, h1, h2, h3, h4⟩ := stepPage_parts s s2 t h
    have hto : sm2.total_energy = 1 := by
      rw [(stepRenew_pres s1 sm2 t h2).2.2.1, (stepCsr_pres s s1 t h1).2.2.1]
      exact h0
    rw [stepTotal_hit sm2 t g0 g2 v hto hs hv] at h3
    injection h3 with h3
    subst h3
    obtain ⟨-, -, -, -, he⟩ := stepGhg_pres _ s2 t h4
    rw [he]
  · intro s s2 t g0 g2 v h0 hs hv h
    obtain ⟨s1, sm2, sm3, h1, h2, h3, h4⟩ := stepPage_parts s s2 t h
    have hgh : sm3.ghg_emissions = 0 := by
      rw [(stepTotal_pres sm2 sm3 t h3).2.2.2.2, (stepRenew_pres s1 sm2 t h2).2.2.2,
        (stepCsr_pres s s1 t h1).2.2.2]
      exact h0
    rw [stepGhg_hit sm3 t g0 g2 v hgh hs hv] at h4
    injection h4 with h4
    subst h4
    rfl

/-- A page for the C9 total-energy witness. -/
def pageC9c : Str := "Total Energy Consumption 400".data

/-- A page for the C9 GHG witness. -/
def pageC9d : Str := "Scope 1 Emissions 77".data

/-- C9 witness: the csr, total-energy and GHG conjuncts instantiate on
concrete pages (the csr page overwrites a previously captured zero-value
snippet). -/
theorem C9_default_value_refound_witness :
    ((⟨8, 0, 1, 0, pageC9b, notFound⟩ : ExtractState).csr_spend = 8 ∧
     (⟨8, 0, 1, 0, pageC9b, notFound⟩ : ExtractState).csr_snippet = pageC9b) ∧
    (⟨0, 0, 400, 0, notFound, notFound⟩ : ExtractState).total_energy = 400 ∧
    (⟨0, 0, 1, 77, notFound, notFound⟩ : ExtractState).ghg_emissions = 77 :=
  ⟨C9_default_value_refound.1 ⟨0, 0, 1, 0, pageC9a, notFound⟩ ⟨8, 0, 1, 0, pageC9b, notFound⟩
      pageC9b pageC9b ("8".data) 8 rfl rfl rfl rfl,
   C9_default_value_refound.2.2.1 initState ⟨0, 0, 400, 0, notFound, notFound⟩
      pageC9c pageC9c ("400".data) 400 rfl rfl rfl rfl,
   C9_default_value_refound.2.2.2.1 initState ⟨0, 0, 1, 77, notFound, notFound⟩
      pageC9d ("Scope 1 Emissions 77".data) ("77".data) 77 rfl rfl rfl rfl⟩

/-! ## C4: a numeric parse failure excludes the whole document -/

/-- The C4 counterexample page: after the label, the first `[\d,]` char is
a comma, so group 2 is "," and float(",") raises ValueError. -/
def pageC4 : Str := "CSR Expenditure, see note 5".data

/-- C4 counterexample: the CSR pattern matches with numeric group ",",
float() fails, and contrary to the claim the document is excluded from
the result set (rather than keeping the field default). -/
theorem C4_counterexample :
    searchLN csrLabels false pageC4 = some ("CSR Expenditure,".data, ",".data) ∧
    pyFloat? (stripCommas (",".data)) = none ∧
    processFile ("c4.pdf".data) (some [some pageC4]) = none ∧
    processPdfs [⟨"c4.pdf".data, some [some pageC4]⟩] = [] := by
  refine ⟨rfl, rfl, rfl, rfl⟩

/-- C4 (amended): for any of the four extraction fields, a
matched-but-unparsable numeric group raises inside the page loop; the
exception is caught by the per-document handler, so the document
contributes no record at all and the batch continues as if the file were
absent. -/
theorem C4_parse_failure_excludes_document :
    (∀ (s : ExtractState) (t g0 g2 : Str),
      s.csr_spend = 0 → searchLN csrLabels false t = some (g0, g2) →
      pyFloat? (stripCommas g2) = none → stepPage s t = none) ∧
    (∀ (s : ExtractState) (t g0 g2 : Str),
      s.renewable_energy = 0 → searchLN renLabels false t = some (g0, g2) →
      pyFloat? (stripCommas g2) = none → stepPage s t = none) ∧
    (∀ (s : ExtractState) (t g0 g2 : Str),
      s.total_energy = 1 → searchLN enLabels false t = some (g0, g2) →
      pyFloat? (stripCommas g2) = none → stepPage s t = none) ∧
    (∀ (s : ExtractState) (t g0 g2 : Str),
      s.ghg_emissions = 0 → searchLN ghgLabels false t = some (g0, g2) →
      pyFloat? (stripCommas g2) = none → stepPage s t = none) ∧
    (∀ (fn : Str) (pre : List Str) (t : Str) (post : List Str)
        (s1 : ExtractState) (ft1 : Str),
      runPages initState [] (pre.map some) = some (s1, ft1) →
      ((s1.csr_spend = 0 ∧ ∃ g0 g2, searchLN csrLabels false t = some (g0, g2) ∧
          pyFloat? (stripCommas g2) = none) ∨
       (s1.renewable_energy = 0 ∧ ∃ g0 g2, searchLN renLabels false t = some (g0, g2) ∧
          pyFloat? (stripCommas g2) = none) ∨
       (s1.total_energy = 1 ∧ ∃ g0 g2, searchLN enLabels false t = some (g0, g2) ∧
          pyFloat? (stripCommas g2) = none) ∨
       (s1.ghg_emissions = 0 ∧ ∃ g0 g2, searchLN ghgLabels false t = some (g0, g2) ∧
          pyFloat? (stripCommas g2) = none)) →
      (pre ++ t :: post).length ≤ 10 →
      processFile fn (some ((pre ++ t :: post).map some)) = none ∧
      ∀ (docs1 docs2 : List Doc),
        processPdfs (docs1 ++ ⟨fn, some ((pre ++ t :: post).map some)⟩ :: docs2) =
          processPdfs (docs1 ++ docs2)) := by
  have hcsr : ∀ (s : ExtractState) (t g0 g2 : Str),
      s.csr_spend = 0 → searchLN csrLabels false t = some (g0, g2) →
      pyFloat? (stripCommas g2) = none → stepPage s t = none := by
    intro s t g0 g2 h0 hs hv
    simp [stepPage, stepCsr_fail s t g0 g2 h0 hs hv]
  have hren : ∀ (s : ExtractState) (t g0 g2 : Str),
      s.renewable_energy = 0 → searchLN renLabels false t = some (g0, g2) →
      pyFloat? (stripCommas g2) = none → stepPage s t = none := by
    intro s t g0 g2 h0 hs hv
    rcases hc : stepCsr s t with _ | s1
    · simp [stepPage, hc]
    · have h1 : s1.renewable_energy = 0 := by
        rw [(stepCsr_pres s s1 t hc).1]
        exact h0
      simp [stepPage, hc, stepRenew_fail s1 t g0 g2 h1 hs hv]
  have htot : ∀ (s : ExtractState) (t g0 g2 : Str),
      s.total_energy = 1 → searchLN enLabels false t = some (g0, g2) →
      pyFloat? (stripCommas g2) = none → stepPage s t = none := by
    intro s t g0 g2 h0 hs hv
    rcases hc : stepCsr s t with _ | s1
    · simp [stepPage, hc]
    · rcases hr : stepRenew s1 t with _ | s2
      · simp [stepPage, hc, hr]
      · have h1 : s2.total_energy = 1 := by
          rw [(stepRenew_pres s1 s2 t hr).2.2.1, (stepCsr_pres s s1 t hc).2.2.1]
          exact h0
        simp [stepPage, hc, hr, stepTotal_fail s2 t g0 g2 h1 hs hv]
  have hghg : ∀ (s : ExtractState) (t g0 g2 : Str),
      s.ghg_emissions = 0 → searchLN ghgLabels false t = some (g0, g2) →
      pyFloat? (stripCommas g2) = none → stepPage s t = none := by
    intro s t g0 g2 h0 hs hv
    rcases hc : stepCsr s t with _ | s1
    · simp [stepPage, hc]
    · rcases hr : stepRenew s1 t with _ | s2
      · simp [stepPage, hc, hr]
      · rcases ht : stepTotal s2 t with _ | s3
        · simp [stepPage, hc, hr, ht]
        · have h1 : s3.ghg_emissions = 0 := by
            rw [(stepTotal_pres s2 s3 t ht).2.2.2.2, (stepRenew_pres s1 s2 t hr).2.2.2,
              (stepCsr_pres s s1 t hc).2.2.2]
            exact h0
          simp [stepPage, hc, hr, ht, stepGhg_fail s3 t g0 g2 h1 hs hv]
  refine ⟨hcsr, hren, htot, hghg, ?_⟩
  intro fn pre t post s1 ft1 hrun hdisj hlen
  have hstep : stepPage s1 t = none := by
    rcases hdisj with ⟨h0, g0, g2, hs, hv⟩ | ⟨h0, g0, g2, hs, hv⟩ |
      ⟨h0, g0, g2, hs, hv⟩ | ⟨h0, g0, g2, hs, hv⟩
    · exact hcsr s1 t g0 g2 h0 hs hv
    · exact hren s1 t g0 g2 h0 hs hv
    · exact htot s1 t g0 g2 h0 hs hv
    · exact hghg s1 t g0 g2 h0 hs hv
  have hpf : processFile fn (some ((pre ++ t :: post).map some)) = none := by
    have htake : ((pre ++ t :: post).map some).take 10 = (pre ++ t :: post).map some :=
      List.take_of_length_le (by simpa using hlen)
    have hsplit : (pre ++ t :: post).map some = pre.map some ++ (some t :: post.map some) := by
      simp
    have hrest : runPages initState [] ((pre ++ t :: post).map some) = none := by
      rw [hsplit, runPages_append (pre.map some) (some t :: post.map some) initState [],
        hrun]
      simp only [Option.some_bind, runPages]
      rw [hstep]
    simp only [processFile, htake, hrest]
  exact ⟨hpf, fun docs1 docs2 => by
    unfold processPdfs
    exact filterMap_middle_none _ docs1 docs2 _ hpf⟩

/-- The C4 CSR witness page: a comma directly after the fallback label. -/
def pageC4w : Str := "Community Spending, ref 5".data

/-- The C4 renewable witness page. -/
def pageC4r : Str := "Renewable Energy, see page 12".data

/-- The C4 total-energy witness page. -/
def pageC4t : Str := "Energy Consumption, net 9".data

/-- The C4 GHG witness page. -/
def pageC4g : Str := "GHG Scope 1, footnote 3".data

/-- C4 witness: for each of the four fields, a page whose only match has
numeric group "," aborts the page, and one-page documents failing on the
CSR and on the GHG pattern are excluded from the batch. -/
theorem C4_parse_failure_excludes_document_witness :
    stepPage initState pageC4w = none ∧
    stepPage initState pageC4r = none ∧
    stepPage initState pageC4t = none ∧
    stepPage initState pageC4g = none ∧
    processFile ("c4w.pdf".data) (some (([] ++ pageC4w :: []).map some)) = none ∧
    processFile ("c4g.pdf".data) (some (([] ++ pageC4g :: []).map some)) = none :=
  ⟨C4_parse_failure_excludes_document.1 initState pageC4w
      ("Community Spending,".data) (",".data) rfl rfl rfl,
   C4_parse_failure_excludes_document.2.1 initState pageC4r
      ("Renewable Energy,".data) (",".data) rfl rfl rfl,
   C4_parse_failure_excludes_document.2.2.1 initState pageC4t
      ("Energy Consumption,".data) (",".data) rfl rfl rfl,
   C4_parse_failure_excludes_document.2.2.2.1 initState pageC4g
      ("GHG Scope 1,".data) (",".data) rfl rfl rfl,
   (C4_parse_failure_excludes_document.2.2.2.2 ("c4w.pdf".data) [] pageC4w []
      initState [] rfl
      (Or.inl ⟨rfl, "Community Spending,".data, ",".data, rfl, rfl⟩) (by decide)).1,
   (C4_parse_failure_excludes_document.2.2.2.2 ("c4g.pdf".data) [] pageC4g []
      initState [] rfl
      (Or.inr (Or.inr (Or.inr ⟨rfl, "GHG Scope 1,".data, ",".data, rfl, rfl⟩)))
      (by decide)).1⟩

/-! ## C6: score invariants -/

/-- Values parsed from the numeric group are nonnegative. -/
theorem pyFloat?_nonneg (s : Str) (v : ℚ) (h : pyFloat? s = some v) : 0 ≤ v := by
  unfold pyFloat? at h
  split at h
  · split at h
    · injection h with h
      subst h
      positivity
    · injection h with h
      subst h
      exact Nat.cast_nonneg _
  · exact Option.noConfusion h

/-- The extraction fields are all nonnegative. -/
def goodSt (s : ExtractState) : Prop :=
  0 ≤ s.csr_spend ∧ 0 ≤ s.renewable_energy ∧ 0 ≤ s.total_energy ∧ 0 ≤ s.ghg_emissions

/-- Each field block preserves nonnegativity of all fields. -/
theorem stepCsr_good (s s2 : ExtractState) (t : Str) (h : stepCsr s t = some s2)
    (hg : goodSt s) : goodSt s2 := by
  unfold stepCsr at h
  by_cases hc : s.csr_spend = 0
  · rw [if_pos hc] at h
    rcases hsr : searchLN csrLabels false t with _ | ⟨g0, g2⟩
    · simp only [hsr] at h
      injection h with h
      subst h
      exact hg
    · simp only [hsr] at h
      rcases hv : pyFloat? (stripCommas g2) with _ | v
      · simp only [hv] at h
        exact Option.noConfusion h
      · simp only [hv] at h
        injection h with h
        subst h
        exact ⟨pyFloat?_nonneg _ v hv, hg.2.1, hg.2.2.1, hg.2.2.2⟩
  · rw [if_neg hc] at h
    injection h with h
    subst h
    exact hg

/-- The renewable block preserves nonnegativity. -/
theorem stepRenew_good (s s2 : ExtractState) (t : Str) (h : stepRenew s t = some s2)
    (hg : goodSt s) : goodSt s2 := by
  unfold stepRenew at h
  by_cases hc : s.renewable_energy = 0
  · rw [if_pos hc] at h
    rcases hsr : searchLN renLabels false t with _ | ⟨g0, g2⟩
    · simp only [hsr] at h
      injection h with h
      subst h
      exact hg
    · simp only [hsr] at h
      rcases hv : pyFloat? (stripCommas g2) with _ | v
      · simp only [hv] at h
        exact Option.noConfusion h
      · simp only [hv] at h
        injection h with h
        subst h
        exact ⟨hg.1, pyFloat?_nonneg _ v hv, hg.2.2.1, hg.2.2.2⟩
  · rw [if_neg hc] at h
    injection h with h
    subst h
    exact hg

/-- The total-energy block preserves nonnegativity. -/
theorem stepTotal_good (s s2 : ExtractState) (t : Str) (h : stepTotal s t = some s2)
    (hg : goodSt s) : goodSt s2 := by
  unfold stepTotal at h
  by_cases hc : s.total_energy = 1
  · rw [if_pos hc] at h
    rcases hsr : searchLN enLabels false t with _ | ⟨g0, g2⟩
    · simp only [hsr] at h
      injection h with h
      subst h
      exact hg
    · simp only [hsr] at h
      rcases hv : pyFloat? (stripCommas g2) with _ | v
      · simp only [hv] at h
        exact Option.noConfusion h
      · simp only [hv] at h
        injection h with h
        subst h
        exact ⟨hg.1, hg.2.1, pyFloat?_nonneg _ v hv, hg.2.2.2⟩
  · rw [if_neg hc] at h
    injection h with h
    subst h
    exact hg

/-- The GHG block preserves nonnegativity. -/
theorem stepGhg_good (s s2 : ExtractState) (t : Str) (h : stepGhg s t = some s2)
    (hg : goodSt s) : goodSt s2 := by
  unfold stepGhg at h
  by_cases hc : s.ghg_emissions = 0
  · rw [if_pos hc] at h
    rcases hsr : searchLN ghgLabels false t with _ | ⟨g0, g2⟩
    · simp only [hsr] at h
      injection h with h
      subst h
      exact hg
    · simp only [hsr] at h
      rcases hv : pyFloat? (stripCommas g2) with _ | v
      · simp only [hv] at h
        exact Option.noConfusion h
      · simp only [hv] at h
        injection h with h
        subst h
        exact ⟨hg.1, hg.2.1, hg.2.2.1, pyFloat?_nonneg _ v hv⟩
  · rw [if_neg hc] at h
    injection h with h
    subst h
    exact hg

/-- A page step preserves nonnegativity. -/
theorem stepPage_good (s s2 : ExtractState) (t : Str) (h : stepPage s t = some s2)
    (hg : goodSt s) : goodSt s2 := by
  obtain ⟨s1, sm2, sm3, h1, h2, h3, h4⟩ := stepPage_parts s s2 t h
  exact stepGhg_good sm3 s2 t h4
    (stepTotal_good sm2 sm3 t h3 (stepRenew_good s1 sm2 t h2 (stepCsr_good s s1 t h1 hg)))

/-- The page loop preserves nonnegativity. -/
theorem runPages_good :
    ∀ (qs : List (Option Str)) (s : ExtractState) (ft : Str) (s2 : ExtractState) (ft2 : Str),
      runPages s ft qs = some (s2, ft2) → goodSt s → goodSt s2 := by
  intro qs
  induction qs with
  | nil =>
    intro s ft s2 ft2 h hg
    simp only [runPages] at h
    injection h with h
    rw [← (Prod.mk.injEq _ _ _ _).mp h |>.1]
    exact hg
  | cons q qt ih =>
    intro s ft s2 ft2 h hg
    cases q with
    | none => exact Option.noConfusion h
    | some t =>
      simp only [runPages] at h
      rcases hsp : stepPage s t with _ | sm
      · rw [hsp] at h
        exact Option.noConfusion h
      · rw [hsp] at h
        exact ih sm (ft ++ t) s2 ft2 h (stepPage_good s sm t hsp hg)

/-- Bounds and shape of the three scores before rounding. -/
theorem scoreOf_bounds (pc : ℕ) (c r te t w rk : ℚ) (hpc : pc ≤ 5)
    (hc : 0 ≤ c) (hr : 0 ≤ r) (hte : 0 ≤ te)
    (heq : scoreOf pc c r te = (t, w, rk)) :
    t = (pc : ℚ) * 20 ∧ 0 ≤ t ∧ t ≤ 100 ∧ 0 ≤ w ∧ w ≤ 100 ∧
    0 ≤ rk ∧ rk ≤ 100 ∧ rk = max (t - w) 0 := by
  simp only [scoreOf, Prod.mk.injEq] at heq
  obtain ⟨ht, hw, hrk⟩ := heq
  rw [if_gt_clamp] at hw hrk
  rw [if_lt_clamp] at hrk
  have hpcq : (pc : ℚ) ≤ 5 := by exact_mod_cast hpc
  have hpc0 : (0:ℚ) ≤ (pc : ℚ) := Nat.cast_nonneg pc
  have htv : t = (pc : ℚ) * 20 := by
    rw [← ht]
    ring
  have ht0 : 0 ≤ t := by rw [htv]; positivity
  have ht100 : t ≤ 100 := by rw [htv]; linarith
  have hrm0 : (0:ℚ) ≤ (if te > 10 then (r / te) * 100 else 0) := by
    split
    · next hgt => exact mul_nonneg (div_nonneg hr (by linarith)) (by norm_num)
    · exact le_refl 0
  have hcs0 : (0:ℚ) ≤ min ((c / 500) * 50) 50 :=
    le_min (mul_nonneg (div_nonneg hc (by norm_num)) (by norm_num)) (by norm_num)
  have hw0 : 0 ≤ w := by
    rw [← hw]
    exact le_min (add_nonneg hrm0 hcs0) (by norm_num)
  have hw100 : w ≤ 100 := by
    rw [← hw]
    exact min_le_right _ _
  have hrkmax : rk = max (t - w) 0 := by
    rw [← hrk, ← hw, ← ht]
  have hrk0 : 0 ≤ rk := by
    rw [hrkmax]
    exact le_max_right _ _
  have hrk100 : rk ≤ 100 := by
    rw [hrkmax]
    exact max_le (by linarith) (by norm_num)
  exact ⟨htv, ht0, ht100, hw0, hw100, hrk0, hrk100, hrkmax⟩

/-- roundHE written with an explicit floor. -/
theorem roundHE_def (x : ℚ) :
    roundHE x = if x - ⌊x⌋ < 1 / 2 then ⌊x⌋
      else if 1 / 2 < x - ⌊x⌋ then ⌊x⌋ + 1
      else if ⌊x⌋ % 2 = 0 then ⌊x⌋ else ⌊x⌋ + 1 := rfl

/-- roundHE is the floor or the floor plus one. -/
theorem roundHE_mem (x : ℚ) : roundHE x = ⌊x⌋ ∨ roundHE x = ⌊x⌋ + 1 := by
  rw [roundHE_def]
  split_ifs <;> simp

/-- roundHE respects integer upper bounds. -/
theorem roundHE_le (x : ℚ) (b : ℤ) (h : x ≤ b) : roundHE x ≤ b := by
  have hfl : ⌊x⌋ ≤ b := by
    have : ⌊x⌋ < b + 1 := Int.floor_lt.mpr (by push_cast; linarith)
    omega
  rw [roundHE_def]
  split_ifs with h1 h2 h3
  · exact hfl
  · by_contra hcon
    have hb : b ≤ ⌊x⌋ := by omega
    have : x ≤ (⌊x⌋ : ℚ) := le_trans h (by exact_mod_cast hb)
    linarith
  · exact hfl
  · by_contra hcon
    have hb : b ≤ ⌊x⌋ := by omega
    have hxn : x ≤ (⌊x⌋ : ℚ) := le_trans h (by exact_mod_cast hb)
    have : x - ⌊x⌋ = 1 / 2 := by linarith
    linarith

/-- roundHE respects integer lower bounds. -/
theorem roundHE_ge (x : ℚ) (a : ℤ) (h : (a : ℚ) ≤ x) : a ≤ roundHE x := by
  have hfl : a ≤ ⌊x⌋ := Int.le_floor.mpr h
  rcases roundHE_mem x with h2 | h2 <;> omega

/-- Round-half-even commutes with subtraction from an even integer. -/
theorem roundHE_even_sub (m : ℤ) (hm : m % 2 = 0) (y : ℚ) :
    roundHE ((m : ℚ) - y) = m - roundHE y := by
  by_cases hfr : y = (⌊y⌋ : ℚ)
  · have h1 : roundHE y = ⌊y⌋ := by
      rw [roundHE_def, if_pos (by rw [← hfr]; norm_num)]
    have h2 : (m : ℚ) - y = ((m - ⌊y⌋ : ℤ) : ℚ) := by
      push_cast
      linarith
    rw [h1, h2, roundHE_intCast]
  · have hlt : (⌊y⌋ : ℚ) < y := lt_of_le_of_ne (Int.floor_le y) (fun h => hfr h.symm)
    have hup : y < (⌊y⌋ : ℚ) + 1 := Int.lt_floor_add_one y
    have hfl2 : ⌊(m : ℚ) - y⌋ = m - ⌊y⌋ - 1 := by
      rw [Int.floor_eq_iff]
      constructor
      · push_cast
        linarith
      · push_cast
        linarith
    rcases lt_trichotomy (y - ⌊y⌋) (1 / 2) with hc | hc | hc
    · have hr : roundHE y = ⌊y⌋ := by
        rw [roundHE_def, if_pos hc]
      have hl : roundHE ((m : ℚ) - y) = m - ⌊y⌋ := by
        rw [roundHE_def, hfl2, if_neg (by push_cast; linarith),
          if_pos (by push_cast; linarith)]
        omega
      rw [hl, hr]
    · have hl2 : ((m : ℚ) - y) - ((m - ⌊y⌋ - 1 : ℤ) : ℚ) = 1 / 2 := by
        push_cast
        linarith
      have hr : roundHE y = if ⌊y⌋ % 2 = 0 then ⌊y⌋ else ⌊y⌋ + 1 := by
        rw [roundHE_def, if_neg (by linarith), if_neg (by linarith)]
      have hl : roundHE ((m : ℚ) - y) =
          if (m - ⌊y⌋ - 1) % 2 = 0 then m - ⌊y⌋ - 1 else m - ⌊y⌋ := by
        rw [roundHE_def, hfl2, if_neg (by rw [hl2]; norm_num), if_neg (by rw [hl2]; norm_num)]
        by_cases hpar : (m - ⌊y⌋ - 1) % 2 = 0
        · rw [if_pos hpar, if_pos hpar]
        · rw [if_neg hpar, if_neg hpar]
          omega
      rw [hl, hr]
      by_cases hn : ⌊y⌋ % 2 = 0
      · rw [if_pos hn, if_neg (by omega)]
      · rw [if_neg hn, if_pos (by omega)]
        omega
    · have hr : roundHE y = ⌊y⌋ + 1 := by
        rw [roundHE_def, if_neg (by linarith), if_pos hc]
      have hl : roundHE ((m : ℚ) - y) = m - ⌊y⌋ - 1 := by
        rw [roundHE_def, hfl2, if_pos (by push_cast; linarith)]
      rw [hl, hr]
      omega

/-- round1 commutes with subtraction from an integer. -/
theorem round1_sub_int (T : ℤ) (y : ℚ) : round1 ((T : ℚ) - y) = T - round1 y := by
  unfold round1
  have h : (10 : ℚ) * ((T : ℚ) - y) = ((10 * T : ℤ) : ℚ) - 10 * y := by
    push_cast
    ring
  rw [h, roundHE_even_sub (10 * T) (by omega) (10 * y)]
  push_cast
  ring

/-- Rounding the clamped difference with an integer minuend agrees with
clamping the difference of the rounded values. -/
theorem round1_max_identity (T : ℤ) (y : ℚ) :
    round1 (max ((T : ℚ) - y) 0) = max ((T : ℚ) - round1 y) 0 := by
  rcases le_or_lt y (T : ℚ) with h | h
  · rw [max_eq_left (by linarith), round1_sub_int]
    have h10 : roundHE (10 * y) ≤ 10 * T := roundHE_le (10 * y) (10 * T) (by push_cast; linarith)
    have hcast : ((roundHE (10 * y) : ℤ) : ℚ) ≤ ((10 * T : ℤ) : ℚ) := by exact_mod_cast h10
    rw [max_eq_left]
    unfold round1
    push_cast at hcast ⊢
    linarith
  · rw [max_eq_right (by linarith)]
    have h10 : (10 * T : ℤ) ≤ roundHE (10 * y) := roundHE_ge (10 * y) (10 * T) (by push_cast; linarith)
    have hcast : ((10 * T : ℤ) : ℚ) ≤ ((roundHE (10 * y) : ℤ) : ℚ) := by exact_mod_cast h10
    rw [max_eq_right]
    · simpa using round1_intCast 0
    · unfold round1
      push_cast at hcast ⊢
      linarith

/-- round1 keeps values inside [0, 100]. -/
theorem round1_bounds (x : ℚ) (h0 : 0 ≤ x) (h1 : x ≤ 100) :
    0 ≤ round1 x ∧ round1 x ≤ 100 := by
  have hge : (0 : ℤ) ≤ roundHE (10 * x) := roundHE_ge (10 * x) 0 (by push_cast; linarith)
  have hle : roundHE (10 * x) ≤ (1000 : ℤ) := roundHE_le (10 * x) 1000 (by push_cast; linarith)
  have hge2 : ((0 : ℤ) : ℚ) ≤ (roundHE (10 * x) : ℚ) := by exact_mod_cast hge
  have hle2 : ((roundHE (10 * x)) : ℚ) ≤ ((1000 : ℤ) : ℚ) := by exact_mod_cast hle
  unfold round1
  push_cast at hge2 hle2 ⊢
  constructor <;> linarith

/-- The record's stored scores come from rounding the computed triple. -/
theorem mkRecord_scores (fn : Str) (st : ExtractState) (ft : Str) (t w rk : ℚ)
    (h : scoreOf (policyCount ft) st.csr_spend st.renewable_energy st.total_energy = (t, w, rk)) :
    (mkRecord fn st ft).talk_score = round1 t ∧ (mkRecord fn st ft).walk_score = round1 w ∧
    (mkRecord fn st ft).risk_score = round1 rk := by
  unfold mkRecord
  simp [h]

/-- C6: every record produced by the pipeline has talk, walk and risk
scores in [0, 100], and its risk score equals max(talk - walk, 0) on the
stored (rounded) scores. -/
theorem C6_scores_in_range :
    ∀ (fn : Str) (pgs : Option (List (Option Str))) (r : Record),
      processFile fn pgs = some r →
      0 ≤ r.talk_score ∧ r.talk_score ≤ 100 ∧ 0 ≤ r.walk_score ∧ r.walk_score ≤ 100 ∧
      0 ≤ r.risk_score ∧ r.risk_score ≤ 100 ∧
      r.risk_score = max (r.talk_score - r.walk_score) 0 := by
  intro fn pgs r h
  rcases pgs with _ | ps
  · exact Option.noConfusion h
  · simp only [processFile] at h
    rcases hrun : runPages initState [] (ps.take 10) with _ | ⟨st, ft⟩
    · rw [hrun] at h
      exact Option.noConfusion h
    · rw [hrun] at h
      injection h with h
      subst h
      have hgood : goodSt st := runPages_good (ps.take 10) initState [] st ft hrun
        ⟨le_refl 0, le_refl 0, by norm_num [initState], le_refl 0⟩
      have hpc : policyCount ft ≤ 5 := List.countP_le_length _
      rcases hscore : scoreOf (policyCount ft) st.csr_spend st.renewable_energy
          st.total_energy with ⟨t, w, rk⟩
      obtain ⟨htv, ht0, ht100, hw0, hw100, hrk0, hrk100, hrkmax⟩ :=
        scoreOf_bounds (policyCount ft) st.csr_spend st.renewable_energy st.total_energy
          t w rk hpc hgood.1 hgood.2.1 hgood.2.2.1 hscore
      obtain ⟨hts, hws, hrs⟩ := mkRecord_scores fn st ft t w rk hscore
      have htint : t = ((20 * (policyCount ft : ℤ) : ℤ) : ℚ) := by
        rw [htv]
        push_cast
        ring
      have htr : round1 t = t := by
        rw [htint]
        exact round1_intCast (20 * (policyCount ft : ℤ))
      refine ⟨?_, ?_, ?_, ?_, ?_, ?_, ?_⟩
      · rw [hts, htr]
        exact ht0
      · rw [hts, htr]
        exact ht100
      · rw [hws]
        exact (round1_bounds w hw0 hw100).1
      · rw [hws]
        exact (round1_bounds w hw0 hw100).2
      · rw [hrs]
        exact (round1_bounds rk hrk0 hrk100).1
      · rw [hrs]
        exact (round1_bounds rk hrk0 hrk100).2
      · rw [hrs, hts, hws, htr, hrkmax, htint]
        exact round1_max_identity (20 * (policyCount ft : ℤ)) w

/-- C6 witness: the bounds instantiate on a concrete empty document, whose
record has all three scores equal to 0. -/
theorem C6_scores_in_range_witness :
    0 ≤ (mkRecord ("e.pdf".data) initState []).talk_score ∧
    (mkRecord ("e.pdf".data) initState []).risk_score =
      max ((mkRecord ("e.pdf".data) initState []).talk_score -
        (mkRecord ("e.pdf".data) initState []).walk_score) 0 := by
  have h := C6_scores_in_range ("e.pdf".data) (some []) (mkRecord ("e.pdf".data) initState []) rfl
  exact ⟨h.1, h.2.2.2.2.2.2⟩

/-! ## C8: filename to display-name resolution -/

/-- The extension literal ".pdf". -/
def pdfExt : Str := ".pdf".data

/-- Does the pattern occur (case-sensitively) in `s` at index `i`? -/
def occursAt (pat s : Str) (i : ℕ) : Bool := (exDrop pat (s.drop i)).isSome

/-- Modelled from the spec's words (claim C8, section 4.5): "removing the
file extension" — drop a trailing ".pdf". -/
def dropExt (f : Str) : Str :=
  if f.drop (f.length - 4) = pdfExt then f.take (f.length - 4) else f

/-- Modelled from the spec's words (claim C8, section 4.5): the fallback
display name is the filename with the extension removed, underscores
replaced by spaces, and title-case applied.  To be compared with the
source's fallbackName, which deletes every occurrence of ".pdf". -/
def specFallbackName (f : Str) : Str :=
  titleCase (replaceAll '_' [] (" ".data) (dropExt f))

/-- C8 counterexample: for the filename "a.pdf_b.pdf" (not in the mapping
table), the source deletes every occurrence of ".pdf" and yields "A B",
while the claim's extension-removal description yields "A.Pdf B"; the
claim's formula therefore does not hold for every filename. -/
theorem C8_counterexample :
    lookupName nameMap ("a.pdf_b.pdf".data) = none ∧
    companyName ("a.pdf_b.pdf".data) = "A B".data ∧
    specFallbackName ("a.pdf_b.pdf".data) = "A.Pdf B".data ∧
    ("A B".data : Str) ≠ "A.Pdf B".data := by
  refine ⟨rfl, rfl, rfl, by decide⟩

/-- Deleting every ".pdf" equals dropping the suffix when ".pdf" occurs
nowhere before the final extension. -/
theorem replaceAllF_pdf_suffix :
    ∀ (g : Str) (n : ℕ), g.length + 4 ≤ n →
      (∀ i, i < g.length → occursAt pdfExt (g ++ pdfExt) i = false) →
      replaceAllF '.' pdfTail [] n (g ++ pdfExt) = g := by
  intro g
  induction g with
  | nil =>
    intro n hn _
    obtain ⟨m, rfl⟩ : ∃ m, n = m + 4 := ⟨n - 4, by omega⟩
    rfl
  | cons a g2 ih =>
    intro n hn h
    obtain ⟨m, rfl⟩ : ∃ m, n = m + 1 := ⟨n - 1, by simp at hn; omega⟩
    have hm : g2.length + 4 ≤ m := by
      simp only [List.length_cons] at hn
      omega
    have hshift : ∀ i, i < g2.length → occursAt pdfExt (g2 ++ pdfExt) i = false := by
      intro i hi
      have h2 := h (i + 1) (by simp only [List.length_cons]; omega)
      simpa [occursAt, List.drop_succ_cons] using h2
    simp only [List.cons_append, replaceAllF, List.append_eq]
    by_cases ha : '.' = a
    · rcases hdr : exDrop pdfTail (g2 ++ pdfExt) with _ | rest
      · simp only [if_pos ha, hdr]
        rw [ih m hm hshift]
      · exfalso
        have h0 := h 0 (by simp)
        rw [occursAt] at h0
        simp only [List.drop_zero] at h0
        have hocc : exDrop pdfExt ((a :: g2) ++ pdfExt) = some rest := by
          show exDrop ('.' :: pdfTail) (a :: (g2 ++ pdfExt)) = some rest
          simp only [exDrop, if_pos ha, hdr]
        rw [hocc] at h0
        simp at h0
    · rw [if_neg ha, ih m hm hshift]

/-- C8 (amended): a filename found in the table resolves to its formal
name ("acc.pdf" to "ACC Limited"); otherwise the source deletes every
occurrence of ".pdf" (then underscores to spaces, then title-case), which
coincides with the claim's extension-removal description exactly when
".pdf" occurs in the filename only as the trailing extension (so
"foo_bar.pdf" resolves to "Foo Bar"). -/
theorem C8_name_resolution :
    (∀ (k v : Str), lookupName nameMap k = some v → companyName k = v) ∧
    companyName ("acc.pdf".data) = "ACC Limited".data ∧
    companyName ("foo_bar.pdf".data) = "Foo Bar".data ∧
    (∀ (g : Str), lookupName nameMap (g ++ pdfExt) = none →
      (∀ i, i < g.length → occursAt pdfExt (g ++ pdfExt) i = false) →
      companyName (g ++ pdfExt) = specFallbackName (g ++ pdfExt)) := by
  refine ⟨?_, rfl, rfl, ?_⟩
  · intro k v h
    unfold companyName
    rw [h]
  · intro g hlook h
    unfold companyName
    rw [hlook]
    have hrepl : replaceAll '.' pdfTail [] (g ++ pdfExt) = g := by
      unfold replaceAll
      exact replaceAllF_pdf_suffix g (g ++ pdfExt).length (by simp [pdfExt]) h
    have hdrop : dropExt (g ++ pdfExt) = g := by
      unfold dropExt
      have hlen : (g ++ pdfExt).length - 4 = g.length := by
        simp [pdfExt]
      rw [hlen, List.drop_left, if_pos rfl, List.take_left]
    unfold fallbackName specFallbackName
    rw [hrepl, hdrop]

/-- C8 witness: both resolution paths instantiate on concrete
filenames. -/
theorem C8_name_resolution_witness :
    companyName ("acc.pdf".data) = "ACC Limited".data ∧
    companyName ("foo_bar".data ++ pdfExt) = specFallbackName ("foo_bar".data ++ pdfExt) :=
  ⟨C8_name_resolution.1 ("acc.pdf".data) ("ACC Limited".data) rfl,
   C8_name_resolution.2.2.2 ("foo_bar".data) (by decide) (by decide)⟩

end Greenwash
